import Mathlib

/-!
# Verification of the obsiflow Streaming Session Orchestrator

A shallow embedding, in Lean 4, of the `SubagentManager` (async/sync subtask
orchestration), together with spec-level models of the outbound
`MessageChannel` and the stream processor's tool-buffering/flush discipline.

Strings are modelled as `List Char` (`Str`).  JavaScript `Map`s are modelled
as association lists with insert-or-replace semantics.  JSON payloads are
modelled by a small JSON AST and a fuel-based recursive-descent parser that
mirrors `JSON.parse` on the fragment of JSON the code consumes.
-/

namespace Obsiflow

/-- Strings as character lists, so that everything reduces in the kernel. -/
abbrev Str := List Char

/-- Coerce a Lean string literal to the `Str` representation. -/
def str (s : String) : Str := s.data

/-- ASCII whitespace, the characters removed by `String.prototype.trim`
(restricted to the ASCII range used by the payloads in question). -/
def isWsChar (c : Char) : Bool :=
  c = ' ' || c = '\t' || c = '\n' || c = '\r' || c = '\x0c' || c = '\x0b'

/-- `trim`: drop whitespace from both ends (JS `String.prototype.trim`). -/
def trimStr (s : Str) : Str :=
  ((s.dropWhile isWsChar).reverse.dropWhile isWsChar).reverse

/-- ASCII lower-casing of one character (JS `toLowerCase` on ASCII). -/
def toLowerChar (c : Char) : Char :=
  if 'A' ≤ c ∧ c ≤ 'Z' then Char.ofNat (c.toNat + 32) else c

/-- ASCII lower-casing of a string. -/
def toLowerStr (s : Str) : Str := s.map toLowerChar

/-- Substring containment (JS `String.prototype.includes`). -/
def containsSub (hay needle : Str) : Bool :=
  match hay with
  | [] => needle.isEmpty
  | _ :: rest => needle.isPrefixOf hay || containsSub rest needle

/-- JS "word character" for `\b` boundaries: `[A-Za-z0-9_]`. -/
def isWordChar (c : Char) : Bool :=
  ('a' ≤ c ∧ c ≤ 'z') || ('A' ≤ c ∧ c ≤ 'Z') || ('0' ≤ c ∧ c ≤ '9') || c = '_'

/-- Character class `[a-zA-Z0-9_-]` of the agent-id regex patterns. -/
def isIdChar (c : Char) : Bool :=
  ('a' ≤ c ∧ c ≤ 'z') || ('A' ≤ c ∧ c ≤ 'Z') || ('0' ≤ c ∧ c ≤ '9') || c = '_' || c = '-'

/-- Lower-case hex digit class `[a-f0-9]` of the bare-token pattern. -/
def isHexChar (c : Char) : Bool :=
  ('a' ≤ c ∧ c ≤ 'f') || ('0' ≤ c ∧ c ≤ '9')

/-- Case-insensitive (ASCII) literal match: does `lit` start `s`, ignoring
case?  Returns the remainder on success. -/
def matchLitCI : Str → Str → Option Str
  | [], s => some s
  | _, [] => none
  | l :: ls, c :: cs => if toLowerChar c = toLowerChar l then matchLitCI ls cs else none

/-- Case-sensitive literal match, returning the remainder on success. -/
def matchLit : Str → Str → Option Str
  | [], s => some s
  | _, [] => none
  | l :: ls, c :: cs => if c = l then matchLit ls cs else none

/-! ## JSON values and parser

Model of the subset of `JSON.parse` behaviour the orchestrator relies on.
Numbers keep their lexeme: the code never computes with them, it only needs
their JS truthiness (zero is falsy). -/

inductive Json where
  | null : Json
  | bool : Bool → Json
  | num : Str → Json
  | strv : Str → Json
  | arr : List Json → Json
  | obj : List (Str × Json) → Json

/-- A JSON number lexeme denotes zero iff every mantissa digit is `0`. -/
def numIsZero (lexeme : Str) : Bool :=
  (lexeme.takeWhile (fun c => c ≠ 'e' ∧ c ≠ 'E')).all
    (fun c => ¬ c.isDigit ∨ c = '0')

/-- JS truthiness of a JSON value. -/
def jsTruthy : Json → Bool
  | .null => false
  | .bool b => b
  | .num l => ¬ numIsZero l
  | .strv s => ¬ s.isEmpty
  | .arr _ => true
  | .obj _ => true

/-- Field lookup on an object (property access); `none` for anything that is
not an object with that field (JS yields `undefined`). -/
def jsGetField (j : Json) (k : Str) : Option Json :=
  match j with
  | .obj fields => (fields.find? (fun f => f.1 = k)).map (·.2)
  | _ => none

/-- JS `a || b` over possibly-absent JSON values: the first operand if it is
present and truthy, otherwise the second. -/
def jsOrVal (a b : Option Json) : Option Json :=
  match a with
  | some v => if jsTruthy v then some v else b
  | none => b

/-- Decimal digits of a natural number (for JS array-index keys). -/
def natDigits (n : Nat) : Str :=
  (Nat.toDigits 10 n)

/-- `Object.keys` as JS computes it on the values `JSON.parse` can return:
field names of an object, index strings of an array or a string, nothing
for primitives. -/
def jsKeys : Json → List Str
  | .obj fields => fields.map (·.1)
  | .arr xs => (List.range xs.length).map natDigits
  | .strv s => (List.range s.length).map natDigits
  | _ => []

/-- `Object.values` on the same value shapes. -/
def jsValues : Json → List Json
  | .obj fields => fields.map (·.2)
  | .arr xs => xs
  | .strv s => s.map (fun c => .strv [c])
  | _ => []

/-- Prepend a parsed field in front of the later fields; on a duplicate key,
JS keeps the first occurrence's position but the last occurrence's value. -/
def objPrepend (k : Str) (v : Json) (rest : List (Str × Json)) : List (Str × Json) :=
  match rest.find? (fun f => f.1 = k) with
  | some f => (k, f.2) :: rest.filter (fun f' => ¬ f'.1 = k)
  | none => (k, v) :: rest

/-- Decoding of a single-character JSON escape. -/
def escChar (e : Char) : Option Char :=
  if e = '"' then some '"'
  else if e = '\\' then some '\\'
  else if e = '/' then some '/'
  else if e = 'b' then some '\x08'
  else if e = 'f' then some '\x0c'
  else if e = 'n' then some '\n'
  else if e = 'r' then some '\r'
  else if e = 't' then some '\t'
  else none

/-- Value of a hexadecimal digit. -/
def hexVal (c : Char) : Option Nat :=
  if '0' ≤ c ∧ c ≤ '9' then some (c.toNat - 48)
  else if 'a' ≤ c ∧ c ≤ 'f' then some (c.toNat - 87)
  else if 'A' ≤ c ∧ c ≤ 'F' then some (c.toNat - 55)
  else none

/-- Parse one JSON string body after the opening quote, handling the standard
escape sequences; returns the decoded characters and the remainder. -/
def parseJsonString : Str → Option (Str × Str)
  | [] => none
  | '"' :: rest => some ([], rest)
  | '\\' :: 'u' :: h1 :: h2 :: h3 :: h4 :: rest =>
    match hexVal h1, hexVal h2, hexVal h3, hexVal h4 with
    | some a, some b, some c, some d =>
      (parseJsonString rest).map
        (fun p => (Char.ofNat (((a * 16 + b) * 16 + c) * 16 + d) :: p.1, p.2))
    | _, _, _, _ => none
  | '\\' :: e :: rest =>
    match escChar e with
    | some c => (parseJsonString rest).map (fun p => (c :: p.1, p.2))
    | none => none
  | c :: rest => (parseJsonString rest).map (fun p => (c :: p.1, p.2))

/-- Parse a JSON number lexeme `-?digits(.digits)?([eE][+-]?digits)?`. -/
def parseJsonNumber (s : Str) : Option (Str × Str) :=
  let (sign, s1) := match s with
    | '-' :: r => (['-'], r)
    | _ => (([] : Str), s)
  let intPart := s1.takeWhile Char.isDigit
  let s2 := s1.dropWhile Char.isDigit
  if intPart.isEmpty then none else
  let (fracPart, s3) := match s2 with
    | '.' :: r =>
      let ds := r.takeWhile Char.isDigit
      if ds.isEmpty then (([] : Str), s2) else ('.' :: ds, r.dropWhile Char.isDigit)
    | _ => (([] : Str), s2)
  let (expPart, s4) := match s3 with
    | e :: r =>
      if e = 'e' ∨ e = 'E' then
        let (es, r1) := match r with
          | p :: r' => if p = '+' ∨ p = '-' then ([p], r') else (([] : Str), r)
          | [] => (([] : Str), r)
        let ds := r1.takeWhile Char.isDigit
        if ds.isEmpty then (([] : Str), s3) else (e :: (es ++ ds), r1.dropWhile Char.isDigit)
      else (([] : Str), s3)
    | [] => (([] : Str), s3)
  some (sign ++ intPart ++ fracPart ++ expPart, s4)

/-- Skip JSON whitespace. -/
def skipWs (s : Str) : Str :=
  s.dropWhile (fun c => c = ' ' || c = '\t' || c = '\n' || c = '\r')

mutual

/-- Fuel-based recursive-descent parse of one JSON value; returns the value
and the unconsumed remainder. -/
def parseJsonVal : Nat → Str → Option (Json × Str)
  | 0, _ => none
  | fuel + 1, s =>
    match skipWs s with
    | 'n' :: 'u' :: 'l' :: 'l' :: r => some (.null, r)
    | 't' :: 'r' :: 'u' :: 'e' :: r => some (.bool true, r)
    | 'f' :: 'a' :: 'l' :: 's' :: 'e' :: r => some (.bool false, r)
    | '"' :: r => (parseJsonString r).map (fun p => (.strv p.1, p.2))
    | '[' :: r =>
      (match skipWs r with
       | ']' :: r' => some (.arr [], r')
       | _ => (parseJsonArr fuel r).map (fun p => (.arr p.1, p.2)))
    | '{' :: r =>
      (match skipWs r with
       | '}' :: r' => some (.obj [], r')
       | _ => (parseJsonObj fuel r).map (fun p => (.obj p.1, p.2)))
    | s' => (parseJsonNumber s').map (fun p => (.num p.1, p.2))

/-- Parse the elements of a non-empty JSON array (after `[`). -/
def parseJsonArr : Nat → Str → Option (List Json × Str)
  | 0, _ => none
  | fuel + 1, s =>
    match parseJsonVal fuel s with
    | none => none
    | some (v, r) =>
      match skipWs r with
      | ',' :: r' => (parseJsonArr fuel r').map (fun p => (v :: p.1, p.2))
      | ']' :: r' => some ([v], r')
      | _ => none

/-- Parse the fields of a non-empty JSON object (after `{`). -/
def parseJsonObj : Nat → Str → Option (List (Str × Json) × Str)
  | 0, _ => none
  | fuel + 1, s =>
    match skipWs s with
    | '"' :: r =>
      match parseJsonString r with
      | none => none
      | some (k, r1) =>
        match skipWs r1 with
        | ':' :: r2 =>
          match parseJsonVal fuel r2 with
          | none => none
          | some (v, r3) =>
            match skipWs r3 with
            | ',' :: r4 =>
              (parseJsonObj fuel r4).map (fun p => (objPrepend k v p.1, p.2))
            | '}' :: r4 => some ([(k, v)], r4)
            | _ => none
        | _ => none
    | _ => none

end

/-- `JSON.parse`: parse a complete JSON document (whole input consumed up to
trailing whitespace). -/
def parseJson (s : Str) : Option Json :=
  match parseJsonVal (2 * s.length + 4) s with
  | some (v, rest) => if (skipWs rest).isEmpty then some v else none
  | none => none

/-! ## The agent-id regular-expression patterns

`SubagentManager.parseAgentId` scans the raw result with five patterns in
priority order before attempting `JSON.parse`.  Each pattern is embedded as a
match-at-position function plus a leftmost scan, mirroring `String.match`. -/

/-- Match `"key"\s*:\s*"([^"]+)"` at the current position (patterns 1–2). -/
def tryQuotedKeyAt (key : Str) (s : Str) : Option Str :=
  match matchLit ('"' :: (key ++ ['"'])) s with
  | none => none
  | some r =>
    match r.dropWhile isWsChar with
    | ':' :: r2 =>
      match r2.dropWhile isWsChar with
      | '"' :: r4 =>
        let cap := r4.takeWhile (fun c => ¬ c = '"')
        match r4.dropWhile (fun c => ¬ c = '"') with
        | '"' :: _ => if cap.isEmpty then none else some cap
        | _ => none
      | _ => none
    | _ => none

/-- Match `key[=:]\s*"?([a-zA-Z0-9_-]+)"?` case-insensitively at the current
position (patterns 3–4).  The optional closing quote always matches, and if
the opening quote is consumed but no id character follows, the regex
backtracks onto the quote itself, which is not an id character, so the
position fails. -/
def tryKeyEqAt (key : Str) (s : Str) : Option Str :=
  match matchLitCI key s with
  | none => none
  | some r =>
    match r with
    | c :: r1 =>
      if c = '=' ∨ c = ':' then
        match r1.dropWhile isWsChar with
        | '"' :: r3 =>
          let cap := r3.takeWhile isIdChar
          if cap.isEmpty then none else some cap
        | r2 =>
          let cap := r2.takeWhile isIdChar
          if cap.isEmpty then none else some cap
      else none
    | [] => none

/-- Match `\b([a-f0-9]{8})\b` at the current position, given the preceding
character (pattern 5). -/
def tryHex8At (prev : Option Char) (s : Str) : Option Str :=
  let boundaryBefore : Bool := match prev with
    | none => true
    | some p => ! isWordChar p
  if ! boundaryBefore then none
  else match s with
  | c1 :: c2 :: c3 :: c4 :: c5 :: c6 :: c7 :: c8 :: rest =>
    let run := [c1, c2, c3, c4, c5, c6, c7, c8]
    let boundaryAfter : Bool := match rest with
      | [] => true
      | c :: _ => ! isWordChar c
    if run.all isHexChar && boundaryAfter then some run else none
  | _ => none

/-- Leftmost application of a match-at-position function (JS `String.match`
with a non-global regex). -/
def scanPattern (tryAt : Str → Option Str) : Str → Option Str
  | [] => none
  | c :: rest =>
    match tryAt (c :: rest) with
    | some cap => some cap
    | none => scanPattern tryAt rest

/-- Leftmost application of the `\b`-anchored hex pattern, threading the
previous character for the boundary check. -/
def scanHex8 (prev : Option Char) : Str → Option Str
  | [] => none
  | c :: rest =>
    match tryHex8At prev (c :: rest) with
    | some cap => some cap
    | none => scanHex8 (some c) rest

/-- The `regexPatterns` loop of `parseAgentId`: the five patterns, tried in
source order, returning the first capture. -/
def tryRegexPatterns (result : Str) : Option Str :=
  match scanPattern (tryQuotedKeyAt (str "agent_id")) result with
  | some cap => some cap
  | none =>
  match scanPattern (tryQuotedKeyAt (str "agentId")) result with
  | some cap => some cap
  | none =>
  match scanPattern (tryKeyEqAt (str "agent_id")) result with
  | some cap => some cap
  | none =>
  match scanPattern (tryKeyEqAt (str "agentId")) result with
  | some cap => some cap
  | none => scanHex8 none result

/-- The structured-JSON fallback of `parseAgentId`: `agent_id || agentId`
(returned when a truthy string), then `data?.agent_id`, then a truthy string
`id`.  A `null` document throws on property access in JS and lands in the
surrounding catch, hence `none`.  A truthy non-string `data.agent_id` would
flow through raw in JS despite the `string | null` annotation; the model
restricts ids to strings. -/
def parseAgentIdJson (result : Str) : Option Str :=
  match parseJson result with
  | none => none
  | some .null => none
  | some parsed =>
    let idBranch : Option Str :=
      match jsGetField parsed (str "id") with
      | some (.strv s) => if s.isEmpty then none else some s
      | _ => none
    let dataBranch : Option Str :=
      match jsGetField parsed (str "data") with
      | some d =>
        match jsGetField d (str "agent_id") with
        | some (.strv s) => if s.isEmpty then idBranch else some s
        | _ => idBranch
      | none => idBranch
    match jsOrVal (jsGetField parsed (str "agent_id")) (jsGetField parsed (str "agentId")) with
    | some (.strv s) => if s.isEmpty then dataBranch else some s
    | _ => dataBranch

/-- `SubagentManager.parseAgentId`: the regex patterns first, then the
structured-JSON fallback — the order the source implements. -/
def parseAgentId (result : Str) : Option Str :=
  match tryRegexPatterns result with
  | some cap => some cap
  | none => parseAgentIdJson result

/-- Modelled from the spec: agent-id extraction as §4.3 words it — "Parsing
tries structured JSON first, then a prioritized sequence of regular-expression
patterns."  Stated only to be compared with `parseAgentId`, which is what the
source implements. -/
def parseAgentIdSpecOrder (result : Str) : Option Str :=
  match parseAgentIdJson result with
  | some cap => some cap
  | none => tryRegexPatterns result

/-- The diagnostic truncation used by `handleTaskToolResult` when no agent id
can be extracted. -/
def truncateResult (result : Str) : Str :=
  if result.length > 100 then result.take 100 ++ str "..." else result

/-! ## JS map model

JavaScript `Map`s are embedded as association lists: `set` replaces in place
(keeping insertion order), `get` finds the unique entry, `delete` removes it,
and `values` iterates in insertion order. -/

/-- `Map.prototype.get`. -/
def mapGet (m : List (Str × α)) (k : Str) : Option α :=
  (m.find? (fun e => e.1 = k)).map (·.2)

/-- `Map.prototype.set`: replace in place, else append. -/
def mapSet (m : List (Str × α)) (k : Str) (v : α) : List (Str × α) :=
  match m with
  | [] => [(k, v)]
  | e :: rest => if e.1 = k then (k, v) :: rest else e :: mapSet rest k v

/-- `Map.prototype.delete`. -/
def mapDelete (m : List (Str × α)) (k : Str) : List (Str × α) :=
  m.filter (fun e => ¬ e.1 = k)

/-- `Map.prototype.has`. -/
def mapHas (m : List (Str × α)) (k : Str) : Bool :=
  (mapGet m k).isSome

/-- Update the value stored at a key in place. -/
def mapUpdate (m : List (Str × α)) (k : Str) (f : α → α) : List (Str × α) :=
  m.map (fun e => if e.1 = k then (e.1, f e.2) else e)

/-- `Map.prototype.values` (as a list, insertion order). -/
def mapValues (m : List (Str × α)) : List α := m.map (·.2)

/-! ## Data model of the SubagentManager (`core/types` and friends) -/

/-- DOM elements are opaque handles: the orchestrator never inspects them. -/
abbrev Elem := Nat

/-- `ToolCallInfo.status` / `SubagentInfo.status` values. -/
inductive ToolStatus where
  | running | completed | error | blocked
deriving DecidableEq, Repr

/-- `SubagentInfo.asyncStatus` values. -/
inductive AsyncStatus where
  | pending | running | completed | error | orphaned
deriving DecidableEq, Repr

/-- `SubagentMode`. -/
inductive SubagentMode where
  | sync | async
deriving DecidableEq, Repr

/-- The fields of a delegation (`Task`) tool's input record that the manager
reads.  `none` is JS `undefined`. -/
structure TaskInput where
  run_in_background : Option Bool := none
  description : Option Str := none
  prompt : Option Str := none
deriving DecidableEq, Repr

/-- `Object.keys(input).length > 0`. -/
def TaskInput.nonEmpty (i : TaskInput) : Bool :=
  i.run_in_background.isSome || i.description.isSome || i.prompt.isSome

/-- Spread-merge `{ ...old, ...new }` of two task inputs. -/
def TaskInput.merge (old new : TaskInput) : TaskInput :=
  { run_in_background := new.run_in_background.orElse (fun _ => old.run_in_background),
    description := new.description.orElse (fun _ => old.description),
    prompt := new.prompt.orElse (fun _ => old.prompt) }

/-- `ToolCallInfo` (the fields the manager touches). -/
structure ToolCallInfo where
  id : Str
  name : Str
  input : TaskInput
  status : ToolStatus
  isExpanded : Bool
  result : Option Str := none
deriving DecidableEq, Repr

/-- `SubagentInfo`. -/
structure SubagentInfo where
  id : Str
  description : Str
  prompt : Str
  mode : SubagentMode
  isExpanded : Bool := false
  status : ToolStatus
  asyncStatus : Option AsyncStatus := none
  agentId : Option Str := none
  result : Option Str := none
  startedAt : Option Nat := none
  completedAt : Option Nat := none
  outputToolId : Option Str := none
deriving DecidableEq, Repr

/-- A sync subagent's render state (`SubagentState` from the rendering
collaborator): the manager only stores it and reads `.info`. -/
structure SubagentState where
  wrapperEl : Elem
  info : SubagentInfo
deriving DecidableEq, Repr

/-- An async subagent's render state (`AsyncSubagentState`). -/
structure AsyncSubagentState where
  wrapperEl : Elem
  info : SubagentInfo
deriving DecidableEq, Repr

/-- `PendingToolCall` from `state/types`. -/
structure PendingToolCall where
  toolCall : ToolCallInfo
  parentEl : Option Elem
deriving DecidableEq, Repr

/-- The mutable fields of `SubagentManager`. -/
structure ManagerState where
  syncSubagents : List (Str × SubagentState) := []
  pendingTasks : List (Str × PendingToolCall) := []
  spawnedThisStream : Nat := 0
  activeAsyncSubagents : List (Str × SubagentInfo) := []
  pendingAsyncSubagents : List (Str × SubagentInfo) := []
  taskIdToAgentId : List (Str × Str) := []
  outputToolIdToAgentId : List (Str × Str) := []
  asyncDomStates : List (Str × AsyncSubagentState) := []
deriving DecidableEq, Repr

/-- The rendering collaborator (`createSubagentBlock` /
`createAsyncSubagentBlock`): side-effecting presentation code that may throw;
`Except.error` is a thrown exception. -/
structure RenderEnv where
  createSubagentBlock : Elem → Str → TaskInput → Except Unit SubagentState
  createAsyncSubagentBlock : Elem → Str → TaskInput → Except Unit AsyncSubagentState

/-! ## Payload classification (`unwrapTextPayload`, `isStillRunningResult`,
`extractAgentResult`, `inferAgentIdFromResult`) -/

/-- `unwrapTextPayload`: peel a content-block envelope.  An array is searched
for the first truthy element with a string `text` field, returned only when
that text is truthy; an object with a string `text` field returns it
unconditionally; everything else returns the raw input. -/
def unwrapTextPayload (raw : Str) : Str :=
  match parseJson raw with
  | some (.arr xs) =>
    (match xs.find? (fun b =>
        jsTruthy b &&
        (match jsGetField b (str "text") with
         | some (.strv _) => true
         | _ => false)) with
     | some b =>
       (match jsGetField b (str "text") with
        | some (.strv s) => if s.isEmpty then raw else s
        | _ => raw)
     | none => raw)
  | some (.obj fields) =>
    (match jsGetField (.obj fields) (str "text") with
     | some (.strv s) => s
     | _ => raw)
  | _ => raw

/-- Does a possibly-absent JS value strictly equal the given string literal? -/
def statusIs (status : Option Json) (lit : String) : Bool :=
  match status with
  | some (.strv s) => s = str lit
  | _ => false

/-- The lower-cased status of one per-agent entry:
`(a && typeof a.status === 'string') ? a.status.toLowerCase() : ''`. -/
def agentStatusLower (a : Json) : Str :=
  if jsTruthy a then
    match jsGetField a (str "status") with
    | some (.strv s) => toLowerStr s
    | _ => []
  else []

/-- Match `<status>([^<]+)<\/status>` at the current position. -/
def tryStatusTagAt (s : Str) : Option Str :=
  match matchLit (str "<status>") s with
  | none => none
  | some r =>
    let cap := r.takeWhile (fun c => ¬ c = '<')
    if cap.isEmpty then none
    else
      match matchLit (str "</status>") (r.dropWhile (fun c => ¬ c = '<')) with
      | some _ => some cap
      | none => none

/-- Leftmost `<status>` tag in a string. -/
def xmlStatusMatch (s : Str) : Option Str := scanPattern tryStatusTagAt s

/-- The non-JSON fallback of `isStillRunningResult`: lower-case, look for the
literal `not_ready` / `not ready` tokens, else for a `<status>` tag holding a
non-terminal value. -/
def stillRunningTextScan (payload : Str) : Bool :=
  let lower := toLowerStr payload
  if containsSub lower (str "not_ready") || containsSub lower (str "not ready") then true
  else
    match xmlStatusMatch lower with
    | some cap =>
      let t := trimStr cap
      t = str "running" || t = str "pending" || t = str "not_ready"
    | none => false

/-- The JSON layer of `isStillRunningResult`, applied when `JSON.parse`
succeeds on a non-`null` document.  (A `null` document throws on property
access in JS, landing in the catch, i.e. the text fallback.) -/
def stillRunningJson (parsed : Json) : Bool :=
  let status := jsOrVal (jsGetField parsed (str "retrieval_status")) (jsGetField parsed (str "status"))
  let agents := jsGetField parsed (str "agents")
  let hasAgents : Bool :=
    match agents with
    | some a => jsTruthy a && (jsKeys a).length > 0
    | none => false
  if statusIs status "not_ready" || statusIs status "running" || statusIs status "pending" then
    true
  else if hasAgents then
    match agents with
    | some a => (jsValues a).any (fun x =>
        let s := agentStatusLower x
        s = str "running" || s = str "pending" || s = str "not_ready")
    | none => false
  else false

/-- `SubagentManager.isStillRunningResult`: classify a "retrieve output"
result as still-running vs terminal. -/
def isStillRunningResult (result : Str) (isError : Bool) : Bool :=
  let trimmed := trimStr result
  let payload := unwrapTextPayload trimmed
  if isError then false
  else if trimmed.isEmpty then false
  else
    match parseJson payload with
    | some .null => stillRunningTextScan payload
    | some parsed => stillRunningJson parsed
    | none => stillRunningTextScan payload

/-- Escape one character for `JSON.stringify` output. -/
def escapeJsonChar (c : Char) : Str :=
  if c = '"' then ['\\', '"']
  else if c = '\\' then ['\\', '\\']
  else if c = '\n' then ['\\', 'n']
  else if c = '\r' then ['\\', 'r']
  else if c = '\t' then ['\\', 't']
  else if c = '\x08' then ['\\', 'b']
  else if c = '\x0c' then ['\\', 'f']
  else [c]

/-- Serialize a string for `JSON.stringify`. -/
def stringifyStr (s : Str) : Str :=
  '"' :: (s.flatMap escapeJsonChar ++ ['"'])

mutual

/-- `JSON.stringify(v, null, 2)`: two-space pretty printing at the given
indentation level. -/
def stringifyJson : Nat → Json → Str
  | _, .null => str "null"
  | _, .bool true => str "true"
  | _, .bool false => str "false"
  | _, .num l => l
  | _, .strv s => stringifyStr s
  | _, .arr [] => str "[]"
  | level, .arr (x :: xs) =>
    '[' :: '\n' :: (stringifyItems level (x :: xs) ++
      ('\n' :: List.replicate (2 * level) ' ' ++ [']']))
  | _, .obj [] => str "\x7b\x7d"
  | level, .obj (f :: fs) =>
    '\x7b' :: '\n' :: (stringifyFields level (f :: fs) ++
      ('\n' :: List.replicate (2 * level) ' ' ++ ['\x7d']))

/-- Array items, one per line at the next indentation level. -/
def stringifyItems : Nat → List Json → Str
  | _, [] => []
  | level, [x] => List.replicate (2 * (level + 1)) ' ' ++ stringifyJson (level + 1) x
  | level, x :: y :: xs =>
    List.replicate (2 * (level + 1)) ' ' ++ stringifyJson (level + 1) x ++
      (',' :: '\n' :: stringifyItems level (y :: xs))

/-- Object fields, one per line at the next indentation level. -/
def stringifyFields : Nat → List (Str × Json) → Str
  | _, [] => []
  | level, [f] =>
    List.replicate (2 * (level + 1)) ' ' ++ stringifyStr f.1 ++
      (':' :: ' ' :: stringifyJson (level + 1) f.2)
  | level, f :: g :: fs =>
    List.replicate (2 * (level + 1)) ' ' ++ stringifyStr f.1 ++
      (':' :: ' ' :: stringifyJson (level + 1) f.2) ++
      (',' :: '\n' :: stringifyFields level (g :: fs))

end

/-- Property access `obj[key]` on the value shapes `JSON.parse` produces. -/
def jsGetProp (j : Json) (k : Str) : Option Json :=
  match j with
  | .obj fields => (fields.find? (fun f => f.1 = k)).map (·.2)
  | .arr xs =>
    match (String.mk k).toNat? with
    | some n => xs[n]?
    | none => none
  | .strv s =>
    match (String.mk k).toNat? with
    | some n => (s[n]?).map (fun c => .strv [c])
    | none => none
  | _ => none

/-- The display value of one agent entry: its truthy string `result` field,
else `JSON.stringify(entry, null, 2)`.  (A truthy non-string `result` would
flow through raw in JS; the model folds it into the stringify fallback.) -/
def agentEntryDisplay (agentData : Json) : Str :=
  match jsGetField agentData (str "result") with
  | some (.strv s) => if s.isEmpty then stringifyJson 0 agentData else s
  | _ => stringifyJson 0 agentData

/-- `SubagentManager.extractAgentResult`: the specific agent's entry in the
`agents` map, falling back to the first entry, falling back to the raw
payload. -/
def extractAgentResult (result : Str) (agentId : Str) : Str :=
  let payload := unwrapTextPayload result
  match parseJson payload with
  | some .null => payload
  | some parsed =>
    (match jsGetField parsed (str "agents") with
     | some agents =>
       if jsTruthy agents then
         match (if agentId.isEmpty then none else jsGetProp agents agentId) with
         | some agentData =>
           if jsTruthy agentData then agentEntryDisplay agentData
           else
             (match (jsKeys agents).head? with
              | some k0 =>
                (match jsGetProp agents k0 with
                 | some .null => payload
                 | some firstAgent => agentEntryDisplay firstAgent
                 | none => payload)
              | none => payload)
         | none =>
           (match (jsKeys agents).head? with
            | some k0 =>
              (match jsGetProp agents k0 with
               | some .null => payload
               | some firstAgent => agentEntryDisplay firstAgent
               | none => payload)
            | none => payload)
       else payload
     | none => payload)
  | none => payload

/-- `SubagentManager.inferAgentIdFromResult`: the first key of a JSON
`agents` object. -/
def inferAgentIdFromResult (result : Str) : Option Str :=
  match parseJson result with
  | some .null => none
  | some parsed =>
    (match jsGetField parsed (str "agents") with
     | some a =>
       let isObjType : Bool := match a with
         | .obj _ => true
         | .arr _ => true
         | _ => false
       if jsTruthy a && isObjType then (jsKeys a).head? else none
     | none => none)
  | none => none

/-- The input record of a "retrieve output" tool call (the fields
`extractAgentIdFromInput` reads). -/
structure AgentOutputInput where
  task_id : Option Str := none
  agentId : Option Str := none
  agent_id : Option Str := none
deriving DecidableEq, Repr

/-- JS `a || b` on optional strings (an empty string is falsy). -/
def jsOrStr (a b : Option Str) : Option Str :=
  match a with
  | some s => if s.isEmpty then b else some s
  | none => b

/-- `SubagentManager.extractAgentIdFromInput`:
`input.task_id || input.agentId || input.agent_id`, then `|| null`. -/
def extractAgentIdFromInput (input : AgentOutputInput) : Option Str :=
  match jsOrStr input.task_id (jsOrStr input.agentId input.agent_id) with
  | some s => if s.isEmpty then none else some s
  | none => none

/-! ## SubagentManager operations

Each operation returns the new `ManagerState` together with the list of
`onStateChange` notifications it fires, in order. -/

/-- `markOrphaned`'s mutation of the record itself. -/
def markOrphanedInfo (now : Nat) (sub : SubagentInfo) : SubagentInfo :=
  { sub with
    asyncStatus := some .orphaned,
    status := .error,
    result := some (str "Conversation ended before task completed"),
    completedAt := some now }

/-- `updateAsyncDomState`: find the DOM state under the record's task id,
else the first one whose info carries the same agent id, and store the
updated record in it.  (The per-phase DOM painting it triggers is
presentation-only and not modelled.) -/
def updateAsyncDomState (s : ManagerState) (subagent : SubagentInfo) : ManagerState :=
  match (if mapHas s.asyncDomStates subagent.id then some subagent.id
         else (s.asyncDomStates.find? (fun e => e.2.info.agentId = subagent.agentId)).map (·.1)) with
  | none => s
  | some k =>
    { s with asyncDomStates := mapUpdate s.asyncDomStates k (fun ast => { ast with info := subagent }) }

/-- `transitionToError`: force a pending async record into terminal `error`,
drop it from the pending map, repaint, notify once. -/
def transitionToError (s : ManagerState) (sub : SubagentInfo) (taskToolId : Str)
    (errorResult : Str) (now : Nat) : ManagerState × List SubagentInfo :=
  let sub' := { sub with
    asyncStatus := some .error,
    status := .error,
    result := some errorResult,
    completedAt := some now }
  let s1 := { s with pendingAsyncSubagents := mapDelete s.pendingAsyncSubagents taskToolId }
  (updateAsyncDomState s1 sub', [sub'])

/-- `handleTaskToolResult`: the first tool-result of an async delegation.
Error results and unparseable agent ids are terminal `error`; a parsed id
moves the record from the pending map to the active map, keyed by the id. -/
def handleTaskToolResult (s : ManagerState) (taskToolId result : Str)
    (isError : Bool) (now : Nat) : ManagerState × List SubagentInfo :=
  match mapGet s.pendingAsyncSubagents taskToolId with
  | none => (s, [])
  | some subagent =>
    if isError then
      transitionToError s subagent taskToolId
        (if result.isEmpty then str "Task failed to start" else result) now
    else
      match parseAgentId result with
      | none =>
        transitionToError s subagent taskToolId
          (str "Failed to parse agent_id. Result: " ++ truncateResult result) now
      | some agentId =>
        let sub' := { subagent with
          asyncStatus := some .running,
          agentId := some agentId,
          startedAt := some now }
        let s1 := { s with
          pendingAsyncSubagents := mapDelete s.pendingAsyncSubagents taskToolId,
          activeAsyncSubagents := mapSet s.activeAsyncSubagents agentId sub',
          taskIdToAgentId := mapSet s.taskIdToAgentId taskToolId agentId }
        (updateAsyncDomState s1 sub', [sub'])

/-- `handleAgentOutputToolUse`: link a "retrieve output" tool call to the
active record its input names. -/
def handleAgentOutputToolUse (s : ManagerState) (toolId : Str)
    (input : AgentOutputInput) : ManagerState :=
  match extractAgentIdFromInput input with
  | none => s
  | some agentId =>
    match mapGet s.activeAsyncSubagents agentId with
    | none => s
    | some sub =>
      { s with
        activeAsyncSubagents :=
          mapSet s.activeAsyncSubagents agentId { sub with outputToolId := some toolId },
        outputToolIdToAgentId := mapSet s.outputToolIdToAgentId toolId agentId }

/-- The inference fallback of `handleAgentOutputToolResult`'s lookup phase:
a truthy inferred agent id that is tracked in the active map. -/
def inferLookup (s : ManagerState) (result : Str) : Option (Str × SubagentInfo) :=
  match inferAgentIdFromResult result with
  | some inferred =>
    if inferred.isEmpty then none
    else (mapGet s.activeAsyncSubagents inferred).map (fun sub => (inferred, sub))
  | none => none

/-- The lookup phase of `handleAgentOutputToolResult`: resolve the tool id
through the output-tool mapping (a truthy agent id pointing at an active
record), falling back to inference from the result payload. -/
def lookupOutputSubagent (s : ManagerState) (toolId result : Str) :
    Option (Str × SubagentInfo) :=
  match (match mapGet s.outputToolIdToAgentId toolId with
         | some aid =>
           if aid.isEmpty then none
           else (mapGet s.activeAsyncSubagents aid).map (fun sub => (aid, sub))
         | none => none) with
  | some p => some p
  | none => inferLookup s result

/-- `sub` after the `agentId = agentId || aid` write. -/
def linkedSub (sub : SubagentInfo) (aid : Str) : SubagentInfo :=
  { sub with agentId := jsOrStr sub.agentId (some aid) }

/-- The state after the pre-guard bookkeeping writes of
`handleAgentOutputToolResult` (record stored back, tool-id mapping set). -/
def linkedState (s : ManagerState) (toolId aid : Str) (sub : SubagentInfo) :
    ManagerState :=
  { s with
    activeAsyncSubagents := mapSet s.activeAsyncSubagents aid (linkedSub sub aid),
    outputToolIdToAgentId := mapSet s.outputToolIdToAgentId toolId aid }

/-- The record the completion path of `handleAgentOutputToolResult` writes. -/
def finishedSub (sub : SubagentInfo) (aid result : Str) (isError : Bool)
    (now : Nat) : SubagentInfo :=
  { linkedSub sub aid with
    asyncStatus := some (if isError then AsyncStatus.error else AsyncStatus.completed),
    status := if isError then ToolStatus.error else ToolStatus.completed,
    result := some (extractAgentResult result aid),
    completedAt := some now }

/-- `handleAgentOutputToolResult`: classify a polling result.  Returns the
new state, the function's return value, and the notifications fired. -/
def handleAgentOutputToolResult (s : ManagerState) (toolId result : Str)
    (isError : Bool) (now : Nat) : ManagerState × Option SubagentInfo × List SubagentInfo :=
  match lookupOutputSubagent s toolId result with
  | none => (s, none, [])
  | some (aid, sub) =>
    let s1 := linkedState s toolId aid sub
    if ¬ (linkedSub sub aid).asyncStatus = some .running then
      (s1, none, [])
    else if isStillRunningResult result isError then
      ({ s1 with outputToolIdToAgentId := mapDelete s1.outputToolIdToAgentId toolId },
       some (linkedSub sub aid), [])
    else
      let s2 := { s1 with
        activeAsyncSubagents := mapDelete s1.activeAsyncSubagents aid,
        outputToolIdToAgentId := mapDelete s1.outputToolIdToAgentId toolId }
      (updateAsyncDomState s2 (finishedSub sub aid result isError now),
       some (finishedSub sub aid result isError now),
       [finishedSub sub aid result isError now])

/-- `resetStreamingState`: new-turn reset — clears only the sync-mode,
per-turn bookkeeping. -/
def resetStreamingState (s : ManagerState) : ManagerState :=
  { s with syncSubagents := [], pendingTasks := [] }

/-- `clear`: full teardown — additionally drops all async tracking. -/
def clear (s : ManagerState) : ManagerState :=
  { s with
    syncSubagents := [],
    pendingTasks := [],
    pendingAsyncSubagents := [],
    activeAsyncSubagents := [],
    taskIdToAgentId := [],
    outputToolIdToAgentId := [],
    asyncDomStates := [] }

/-- `orphanAllActive`: the session-end orphan sweep.  Every pending record,
and every active record still `running`, is orphaned (repaint + one
notification each); then the async tracking maps are emptied.  Returns the
new state, the returned `orphaned` array, and the notifications. -/
def orphanAllActive (s : ManagerState) (now : Nat) :
    ManagerState × List SubagentInfo × List SubagentInfo :=
  let fromPending := (mapValues s.pendingAsyncSubagents).map (markOrphanedInfo now)
  let fromActive :=
    ((mapValues s.activeAsyncSubagents).filter
      (fun sub => sub.asyncStatus = some .running)).map (markOrphanedInfo now)
  let orphaned := fromPending ++ fromActive
  let s1 := orphaned.foldl updateAsyncDomState s
  let s2 := { s1 with
    pendingAsyncSubagents := [],
    activeAsyncSubagents := [],
    taskIdToAgentId := [],
    outputToolIdToAgentId := [] }
  (s2, orphaned, orphaned)

/-- `getByTaskId`: the pending record under a task id, else the active record
its agent-id mapping points at. -/
def getByTaskId (s : ManagerState) (taskToolId : Str) : Option SubagentInfo :=
  match mapGet s.pendingAsyncSubagents taskToolId with
  | some sub => some sub
  | none =>
    match mapGet s.taskIdToAgentId taskToolId with
    | some agentId => mapGet s.activeAsyncSubagents agentId
    | none => none

/-! ## Task creation, pending-task promotion, and the unified entry point

Creation calls the rendering collaborator, which may throw; an `Except.error`
carries the manager state as mutated up to the throw point, mirroring a JS
exception unwinding past already-performed mutations. -/

/-- `createSyncTask`. -/
def createSyncTask (s : ManagerState) (env : RenderEnv) (taskToolId : Str)
    (taskInput : TaskInput) (parentEl : Elem) :
    Except ManagerState (ManagerState × SubagentState) :=
  match env.createSubagentBlock parentEl taskToolId taskInput with
  | .error _ => .error s
  | .ok subagentState =>
    .ok ({ s with syncSubagents := mapSet s.syncSubagents taskToolId subagentState },
         subagentState)

/-- `createAsyncTask`: the pending record is registered before the renderer
runs, so a throwing renderer still leaves the record registered. -/
def createAsyncTask (s : ManagerState) (env : RenderEnv) (taskToolId : Str)
    (taskInput : TaskInput) (parentEl : Elem) :
    Except ManagerState (ManagerState × SubagentInfo × AsyncSubagentState) :=
  let info : SubagentInfo :=
    { id := taskToolId,
      description := (taskInput.description).getD (str "Background task"),
      prompt := (taskInput.prompt).getD [],
      mode := .async,
      isExpanded := false,
      status := .running,
      asyncStatus := some .pending }
  let s1 := { s with pendingAsyncSubagents := mapSet s.pendingAsyncSubagents taskToolId info }
  match env.createAsyncSubagentBlock parentEl taskToolId taskInput with
  | .error _ => .error s1
  | .ok domState =>
    .ok ({ s1 with asyncDomStates := mapSet s1.asyncDomStates taskToolId domState },
         info, domState)

/-- The result of promoting a buffered pending task. -/
inductive RenderPendingResult where
  | sync (st : SubagentState)
  | async (info : SubagentInfo) (domState : AsyncSubagentState)
deriving Repr

/-- `renderPendingTask`: promote a buffered pending task.  The bookkeeping
entry is deleted before the guarded creation, whose exceptions are swallowed
(`catch` → `return null`); without a target element nothing happens. -/
def renderPendingTask (s : ManagerState) (env : RenderEnv) (toolId : Str)
    (parentElOverride : Option Elem) : ManagerState × Option RenderPendingResult :=
  match mapGet s.pendingTasks toolId with
  | none => (s, none)
  | some pending =>
    let input := pending.toolCall.input
    match parentElOverride.orElse (fun _ => pending.parentEl) with
    | none => (s, none)
    | some targetEl =>
      let s1 := { s with pendingTasks := mapDelete s.pendingTasks toolId }
      if input.run_in_background = some true then
        match createAsyncTask s1 env pending.toolCall.id input targetEl with
        | .error s2 => (s2, none)
        | .ok (s2, info, domState) =>
          ({ s2 with spawnedThisStream := s2.spawnedThisStream + 1 },
           some (.async info domState))
      else
        match createSyncTask s1 env pending.toolCall.id input targetEl with
        | .error s2 => (s2, none)
        | .ok (s2, st) =>
          ({ s2 with spawnedThisStream := s2.spawnedThisStream + 1 },
           some (.sync st))

/-- `updateSubagentLabel`'s mutation of a record: a truthy `description` or
`prompt` in the new input overwrites the stored one.  (The 40-character label
truncation only touches the DOM.) -/
def applyLabelInput (newInput : TaskInput) (info : SubagentInfo) : SubagentInfo :=
  if ¬ newInput.nonEmpty then info
  else
    let info1 := match newInput.description with
      | some d => if d.isEmpty then info else { info with description := d }
      | none => info
    match newInput.prompt with
    | some p => if p.isEmpty then info1 else { info1 with prompt := p }
    | none => info1

/-- The canonical-record sync in `handleTaskToolUse`'s async label branch:
defined (non-empty) `description` / `prompt` inputs are copied onto the
canonical record. -/
def applyCanonicalInput (newInput : TaskInput) (info : SubagentInfo) : SubagentInfo :=
  let info1 := match newInput.description with
    | some d => if d.isEmpty then info else { info with description := d }
    | none => info
  match newInput.prompt with
  | some p => if p.isEmpty then info1 else { info1 with prompt := p }
  | none => info1

/-- Overwrite the canonical record for a task id, wherever it is tracked. -/
def setCanonicalByTaskId (s : ManagerState) (taskToolId : Str)
    (f : SubagentInfo → SubagentInfo) : ManagerState :=
  match mapGet s.pendingAsyncSubagents taskToolId with
  | some _ =>
    { s with pendingAsyncSubagents := mapUpdate s.pendingAsyncSubagents taskToolId f }
  | none =>
    match mapGet s.taskIdToAgentId taskToolId with
    | some agentId =>
      { s with activeAsyncSubagents := mapUpdate s.activeAsyncSubagents agentId f }
    | none => s

/-- `HandleTaskResult`. -/
inductive HandleTaskResult where
  | buffered
  | created_sync (st : SubagentState)
  | created_async (info : SubagentInfo) (domState : AsyncSubagentState)
  | label_updated
deriving Repr

/-- `handleTaskToolUse`: the unified `Task` tool_use entry point.  Already
rendered ids get a label update; buffered ids merge input and promote when
`run_in_background` becomes known; new ids render when the flag and a parent
element are at hand, else they are buffered.  A renderer throw outside
`renderPendingTask` propagates (`Except.error`, carrying the state so far). -/
def handleTaskToolUse (s : ManagerState) (env : RenderEnv) (taskToolId : Str)
    (taskInput : TaskInput) (currentContentEl : Option Elem) :
    Except ManagerState (ManagerState × HandleTaskResult) :=
  match mapGet s.syncSubagents taskToolId with
  | some _ =>
    let newSync := mapUpdate s.syncSubagents taskToolId
      (fun st => { st with info := applyLabelInput taskInput st.info })
    .ok ({ s with syncSubagents := newSync }, .label_updated)
  | none =>
  match mapGet s.asyncDomStates taskToolId with
  | some _ =>
    let newDom := mapUpdate s.asyncDomStates taskToolId
      (fun ast => { ast with info := applyLabelInput taskInput ast.info })
    let s1 := { s with asyncDomStates := newDom }
    let s2 :=
      match getByTaskId s1 taskToolId with
      | some _ => setCanonicalByTaskId s1 taskToolId (applyCanonicalInput taskInput)
      | none => s1
    .ok (s2, .label_updated)
  | none =>
  match mapGet s.pendingTasks taskToolId with
  | some pending =>
    let pending1 :=
      if taskInput.nonEmpty then
        { pending with toolCall := { pending.toolCall with
            input := TaskInput.merge pending.toolCall.input taskInput } }
      else pending
    let pending2 := match currentContentEl with
      | some el => { pending1 with parentEl := some el }
      | none => pending1
    let s1 := { s with pendingTasks := mapSet s.pendingTasks taskToolId pending2 }
    if pending2.toolCall.input.run_in_background.isSome then
      match renderPendingTask s1 env taskToolId currentContentEl with
      | (s2, some (.sync st)) => .ok (s2, .created_sync st)
      | (s2, some (.async info domState)) => .ok (s2, .created_async info domState)
      | (s2, none) => .ok (s2, .buffered)
    else .ok (s1, .buffered)
  | none =>
  match currentContentEl with
  | none =>
    let toolCall : ToolCallInfo :=
      { id := taskToolId, name := str "Task", input := taskInput,
        status := .running, isExpanded := false }
    .ok ({ s with pendingTasks := mapSet s.pendingTasks taskToolId ⟨toolCall, none⟩ },
         .buffered)
  | some el =>
    match taskInput.run_in_background with
    | some rib =>
      let s1 := { s with spawnedThisStream := s.spawnedThisStream + 1 }
      if rib then
        match createAsyncTask s1 env taskToolId taskInput el with
        | .error s2 => .error s2
        | .ok (s2, info, domState) => .ok (s2, .created_async info domState)
      else
        match createSyncTask s1 env taskToolId taskInput el with
        | .error s2 => .error s2
        | .ok (s2, st) => .ok (s2, .created_sync st)
    | none =>
      let toolCall : ToolCallInfo :=
        { id := taskToolId, name := str "Task", input := taskInput,
          status := .running, isExpanded := false }
      .ok ({ s with pendingTasks := mapSet s.pendingTasks taskToolId ⟨toolCall, some el⟩ },
           .buffered)

/-! ## Result-processing event traces

The result-processing entry points of the manager, as one step relation, so
that properties over arbitrary event sequences can be stated.  Each step
yields the `onStateChange` notifications it fires, in order. -/

/-- A result-processing event: a `Task` tool-result, a "retrieve output"
tool_use or tool_result, the session-end orphan sweep, or the per-turn
reset. -/
inductive ResultEvent where
  | taskResult (taskToolId result : Str) (isError : Bool) (now : Nat)
  | outputUse (toolId : Str) (input : AgentOutputInput)
  | outputResult (toolId result : Str) (isError : Bool) (now : Nat)
  | orphanSweep (now : Nat)
  | resetStreaming

/-- One event against the manager. -/
def stepEvent (s : ManagerState) : ResultEvent → ManagerState × List SubagentInfo
  | .taskResult tid result isError now => handleTaskToolResult s tid result isError now
  | .outputUse toolId input => (handleAgentOutputToolUse s toolId input, [])
  | .outputResult toolId result isError now =>
    let out := handleAgentOutputToolResult s toolId result isError now
    (out.1, out.2.2)
  | .orphanSweep now =>
    let out := orphanAllActive s now
    (out.1, out.2.2)
  | .resetStreaming => (resetStreamingState s, [])

/-- A sequence of events; the notification trace is concatenated in order. -/
def runEvents (s : ManagerState) : List ResultEvent → ManagerState × List SubagentInfo
  | [] => (s, [])
  | e :: es =>
    let out := stepEvent s e
    let rest := runEvents out.1 es
    (rest.1, out.2 ++ rest.2)

/-- A terminal `asyncStatus`. -/
def terminalAsync (a : Option AsyncStatus) : Bool :=
  match a with
  | some .completed => true
  | some .error => true
  | some .orphaned => true
  | _ => false

/-- The well-formedness invariant the manager maintains: pending records are
`pending` and keyed by their own id, active records are `running`, keys and
record ids are unique, and no id is tracked in both maps. -/
structure Inv (s : ManagerState) : Prop where
  pendingOk : ∀ e ∈ s.pendingAsyncSubagents,
    e.2.asyncStatus = some AsyncStatus.pending ∧ e.2.id = e.1
  activeOk : ∀ e ∈ s.activeAsyncSubagents, e.2.asyncStatus = some AsyncStatus.running
  pendingKeysNodup : (s.pendingAsyncSubagents.map Prod.fst).Nodup
  activeKeysNodup : (s.activeAsyncSubagents.map Prod.fst).Nodup
  activeIdKey : ∀ e₁ ∈ s.activeAsyncSubagents, ∀ e₂ ∈ s.activeAsyncSubagents,
    e₁.2.id = e₂.2.id → e₁.1 = e₂.1
  disj : ∀ e ∈ s.pendingAsyncSubagents, ∀ e' ∈ s.activeAsyncSubagents, ¬ e.1 = e'.2.id

/-- Id `i` is tracked by neither async map. -/
def Untracked (s : ManagerState) (i : Str) : Prop :=
  (∀ e ∈ s.pendingAsyncSubagents, ¬ e.1 = i) ∧
  (∀ e ∈ s.activeAsyncSubagents, ¬ e.2.id = i)

/-! ## Spec-level model of the stream processor's flush discipline

Modelled from the spec: the `StreamController` / StreamEventProcessor
implementation is not among the sources (only its unit tests are), so the
tool-buffering and flush discipline of §4.2 is modelled from the spec's
words: tool events create-or-update a buffered ToolCall (merging input, a
later fragment never removing keys); a flush converts every buffered tool
into a rendered ToolCall in original buffering order and appends one content
block per tool; a `text` event triggers a flush before accumulating, and text
finalization appends a text block only for non-empty content. -/

inductive ContentBlock where
  | textBlock (content : Str)
  | thinkingBlock (content : Str)
  | toolBlock (toolId : Str)
deriving DecidableEq, Repr

/-- Modelled from the spec: the in-progress message / processor state. -/
structure ProcState where
  contentBlocks : List ContentBlock := []
  bufferedTools : List ToolCallInfo := []
  renderedTools : List Str := []
  textAccum : Str := []
deriving Repr

/-- Modelled from the spec: the inbound events the ordering claim ranges
over. -/
inductive StreamEvent where
  | text (content : Str)
  | toolUse (id name : Str) (input : TaskInput)
  | done

/-- Modelled from the spec: create-or-update of a buffered tool — an existing
id merges input in place (keeping its buffering position), a new id is
appended. -/
def bufferTool (buf : List ToolCallInfo) (id name : Str) (input : TaskInput) :
    List ToolCallInfo :=
  if buf.any (fun t => t.id = id) then
    buf.map (fun t => if t.id = id then { t with input := t.input.merge input } else t)
  else
    buf ++ [{ id := id, name := name, input := input, status := .running, isExpanded := false }]

/-- Modelled from the spec: a flush — every buffered tool becomes a rendered
ToolCall, in original buffering order, one content block appended per tool. -/
def flushTools (p : ProcState) : ProcState :=
  { p with
    contentBlocks := p.contentBlocks ++ p.bufferedTools.map (fun t => .toolBlock t.id),
    renderedTools := p.renderedTools ++ p.bufferedTools.map (·.id),
    bufferedTools := [] }

/-- Modelled from the spec: text finalization — a single text content block,
appended only when non-empty content was produced. -/
def finalizeText (p : ProcState) : ProcState :=
  if p.textAccum.isEmpty then p
  else { p with contentBlocks := p.contentBlocks ++ [.textBlock p.textAccum], textAccum := [] }

/-- Modelled from the spec: one inbound event.  `text` flushes buffered tools
then accumulates; `tool_use` finalizes any open text then buffers; `done`
flushes and finalizes. -/
def procEvent (p : ProcState) : StreamEvent → ProcState
  | .text c =>
    let p1 := flushTools p
    { p1 with textAccum := p1.textAccum ++ c }
  | .toolUse id name input =>
    let p1 := finalizeText p
    { p1 with bufferedTools := bufferTool p1.bufferedTools id name input }
  | .done => finalizeText (flushTools p)

/-- Process a sequence of events. -/
def procEvents (p : ProcState) (es : List StreamEvent) : ProcState :=
  es.foldl procEvent p

/-- First-appearance order of tool ids in a fragment sequence. -/
def firstAppearance (ts : List (Str × Str × TaskInput)) : List Str :=
  ts.foldl (fun acc t => if acc.any (fun x => x = t.1) then acc else acc ++ [t.1]) []

/-! ## Spec-level model of the outbound message channel

Modelled from the spec: the `MessageChannel` implementation
(`src/core/agent/MessageChannel.ts`) is not among the sources (only its unit
tests and a re-export are), so §4.1 is modelled from the spec's words: a
bounded queue (capacity 8) of text (mergeable) or attachment (singular,
replace-on-conflict) entries, a `turnActive` flag, a closed flag. -/

inductive QueueEntry where
  | text (content : Str)
  | attachment (payload : Str)
deriving DecidableEq, Repr

/-- Is an entry attachment-bearing? -/
def QueueEntry.isAttachment : QueueEntry → Bool
  | .attachment _ => true
  | .text _ => false

/-- Modelled from the spec: channel state. -/
structure ChannelState where
  queue : List QueueEntry := []
  turnActive : Bool := false
  closed : Bool := false
deriving DecidableEq, Repr

/-- The soft warnings the channel can emit. -/
inductive ChannelWarning where
  | queueFull
  | mergeTooLong
  | attachmentReplaced
deriving DecidableEq, Repr

/-- Modelled from the spec: the bounded queue's capacity ("capacity N, e.g.
8"; the unit tests pin 8). -/
def channelCapacity : Nat := 8

/-- Modelled from the spec: the merge separator (the unit tests pin a blank
line). -/
def mergeSeparator : Str := str "\n\n"

/-- Modelled from the spec: `enqueue`.  Enqueue-after-close is a hard error.
A text entry merges into the last queued text entry while a turn is active,
bounded by `maxMergedLen` (exceeding it keeps only the previously-accepted
content, with a warning).  An attachment entry replaces any previously queued
attachment, with a warning.  At capacity, the newest entry is dropped with a
warning. -/
def enqueue (maxMergedLen : Nat) (s : ChannelState) (m : QueueEntry) :
    Except Unit (ChannelState × List ChannelWarning) :=
  if s.closed then .error () else
  match m with
  | .attachment d =>
    if s.queue.any QueueEntry.isAttachment then
      .ok ({ s with queue :=
              (s.queue.filter (fun e => ¬ e.isAttachment = true)) ++ [.attachment d] },
           [.attachmentReplaced])
    else if s.queue.length ≥ channelCapacity then
      .ok (s, [.queueFull])
    else
      .ok ({ s with queue := s.queue ++ [.attachment d] }, [])
  | .text c =>
    let lastText : Option Str := (s.queue.filterMap (fun e =>
      match e with
      | .text t => some t
      | .attachment _ => none)).getLast?
    match (if s.turnActive then lastText else none) with
    | some prior =>
      let merged := prior ++ mergeSeparator ++ c
      if merged.length > maxMergedLen then
        .ok (s, [.mergeTooLong])
      else
        .ok ({ s with queue := s.queue.map (fun e =>
                if e = .text prior then .text merged else e) },
             [])
    | none =>
      if s.queue.length ≥ channelCapacity then
        .ok (s, [.queueFull])
      else
        .ok ({ s with queue := s.queue ++ [.text c] }, [])

/-- Modelled from the spec: the transport's pull — deliver the head entry if
one is queued (marking the turn active), else suspend (`none`). -/
def pullChannel (s : ChannelState) : Option (QueueEntry × ChannelState) :=
  if s.closed then none
  else
    match s.queue with
    | [] => none
    | e :: rest => some (e, { s with queue := rest, turnActive := true })

/-- Modelled from the spec: `onTurnComplete`. -/
def onTurnComplete (s : ChannelState) : ChannelState :=
  { s with turnActive := false }

/-! ## Lemmas about the JS map model -/

theorem mapGet_some_mem {α : Type} {m : List (Str × α)} {k : Str} {v : α}
    (h : mapGet m k = some v) : (k, v) ∈ m := by
  unfold mapGet at h
  cases hf : m.find? (fun e => e.1 = k) with
  | none => rw [hf] at h; simp at h
  | some e =>
    rw [hf] at h
    simp only [Option.map_some'] at h
    have hmem := List.mem_of_find?_eq_some hf
    have hkey := List.find?_some hf
    simp only [decide_eq_true_eq] at hkey
    cases e with
    | mk k' v' =>
      cases h
      cases hkey
      exact hmem

theorem mem_mapSet_weak {α : Type} {m : List (Str × α)} {k : Str} {v : α} {e : Str × α}
    (h : e ∈ mapSet m k v) : e = (k, v) ∨ e ∈ m := by
  induction m with
  | nil =>
    rw [mapSet] at h
    rcases List.mem_singleton.mp h with rfl
    exact Or.inl rfl
  | cons e' rest ih =>
    rw [mapSet] at h
    by_cases hk : e'.1 = k
    · rw [if_pos hk] at h
      rcases List.mem_cons.mp h with rfl | hmem
      · exact Or.inl rfl
      · exact Or.inr (List.mem_cons_of_mem _ hmem)
    · rw [if_neg hk] at h
      rcases List.mem_cons.mp h with rfl | hmem
      · exact Or.inr (List.mem_cons_self _ _)
      · rcases ih hmem with h' | h'
        · exact Or.inl h'
        · exact Or.inr (List.mem_cons_of_mem _ h')

theorem mem_mapSet_iff {α : Type} {m : List (Str × α)} {k : Str} {v : α} {e : Str × α}
    (hnd : (m.map Prod.fst).Nodup) :
    e ∈ mapSet m k v ↔ (e = (k, v) ∨ (e ∈ m ∧ ¬ e.1 = k)) := by
  induction m with
  | nil =>
    rw [mapSet]
    simp
  | cons e' rest ih =>
    simp only [List.map_cons, List.nodup_cons, List.mem_map] at hnd
    rw [mapSet]
    by_cases hk : e'.1 = k
    · rw [if_pos hk]
      simp only [List.mem_cons]
      constructor
      · rintro (rfl | hmem)
        · exact Or.inl rfl
        · refine Or.inr ⟨Or.inr hmem, ?_⟩
          intro hek
          exact hnd.1 ⟨e, hmem, by rw [hek, hk]⟩
      · rintro (rfl | ⟨hmem, hek⟩)
        · exact Or.inl rfl
        · rcases hmem with rfl | hmem'
          · exact absurd hk hek
          · exact Or.inr hmem'
    · rw [if_neg hk]
      simp only [List.mem_cons]
      rw [ih hnd.2]
      constructor
      · rintro (rfl | (rfl | ⟨hmem, hek⟩))
        · exact Or.inr ⟨Or.inl rfl, by simpa using hk⟩
        · exact Or.inl rfl
        · exact Or.inr ⟨Or.inr hmem, hek⟩
      · rintro (rfl | ⟨(rfl | hmem), hek⟩)
        · exact Or.inr (Or.inl rfl)
        · exact Or.inl rfl
        · exact Or.inr (Or.inr ⟨hmem, hek⟩)

theorem keys_mapSet_nodup {α : Type} {m : List (Str × α)} {k : Str} {v : α}
    (hnd : (m.map Prod.fst).Nodup) :
    ((mapSet m k v).map Prod.fst).Nodup := by
  induction m with
  | nil =>
    rw [mapSet]
    simp
  | cons e' rest ih =>
    simp only [List.map_cons, List.nodup_cons, List.mem_map] at hnd
    rw [mapSet]
    by_cases hk : e'.1 = k
    · rw [if_pos hk]
      simp only [List.map_cons, List.nodup_cons, List.mem_map]
      refine ⟨?_, hnd.2⟩
      rintro ⟨e, hmem, hek⟩
      exact hnd.1 ⟨e, hmem, by rw [hek, hk]⟩
    · rw [if_neg hk]
      simp only [List.map_cons, List.nodup_cons, List.mem_map]
      refine ⟨?_, ih hnd.2⟩
      rintro ⟨e, hmem, hek⟩
      rcases mem_mapSet_weak hmem with rfl | hmem'
      · exact hk hek.symm
      · exact hnd.1 ⟨e, hmem', hek⟩

theorem mem_mapDelete {α : Type} {m : List (Str × α)} {k : Str} {e : Str × α} :
    e ∈ mapDelete m k ↔ e ∈ m ∧ ¬ e.1 = k := by
  simp [mapDelete, List.mem_filter]

theorem mapDelete_sublist {α : Type} (m : List (Str × α)) (k : Str) :
    (mapDelete m k).Sublist m :=
  List.filter_sublist m

theorem keys_mapDelete_nodup {α : Type} {m : List (Str × α)} {k : Str}
    (hnd : (m.map Prod.fst).Nodup) :
    ((mapDelete m k).map Prod.fst).Nodup :=
  hnd.sublist ((mapDelete_sublist m k).map Prod.fst)

theorem mapGet_mapDelete_self {α : Type} (m : List (Str × α)) (k : Str) :
    mapGet (mapDelete m k) k = none := by
  unfold mapGet
  cases hf : (mapDelete m k).find? (fun e => e.1 = k) with
  | none => rfl
  | some e =>
    have hkey := List.find?_some hf
    have hmem := List.mem_of_find?_eq_some hf
    simp only [decide_eq_true_eq] at hkey
    rw [mem_mapDelete] at hmem
    exact absurd hkey hmem.2

theorem mapGet_mapSet_self {α : Type} (m : List (Str × α)) (k : Str) (v : α) :
    mapGet (mapSet m k v) k = some v := by
  induction m with
  | nil => rw [mapSet]; simp [mapGet]
  | cons e rest ih =>
    rw [mapSet]
    by_cases hk : e.1 = k
    · rw [if_pos hk]; simp [mapGet]
    · rw [if_neg hk]
      unfold mapGet at ih ⊢
      rw [List.find?_cons_of_neg _ (by simpa using hk)]
      exact ih

theorem mem_mapUpdate {α : Type} {m : List (Str × α)} {k : Str} {f : α → α} {e : Str × α}
    (h : e ∈ mapUpdate m k f) :
    ∃ e' ∈ m, e = if e'.1 = k then (e'.1, f e'.2) else e' := by
  simp only [mapUpdate, List.mem_map] at h
  rcases h with ⟨e', he', rfl⟩
  exact ⟨e', he', rfl⟩

/-! ## Frame lemmas: which fields each operation leaves alone -/

@[simp] theorem updateAsyncDomState_pending (s : ManagerState) (sub : SubagentInfo) :
    (updateAsyncDomState s sub).pendingAsyncSubagents = s.pendingAsyncSubagents := by
  unfold updateAsyncDomState
  split <;> rfl

@[simp] theorem updateAsyncDomState_active (s : ManagerState) (sub : SubagentInfo) :
    (updateAsyncDomState s sub).activeAsyncSubagents = s.activeAsyncSubagents := by
  unfold updateAsyncDomState
  split <;> rfl

@[simp] theorem updateAsyncDomState_taskIds (s : ManagerState) (sub : SubagentInfo) :
    (updateAsyncDomState s sub).taskIdToAgentId = s.taskIdToAgentId := by
  unfold updateAsyncDomState
  split <;> rfl

@[simp] theorem updateAsyncDomState_outputIds (s : ManagerState) (sub : SubagentInfo) :
    (updateAsyncDomState s sub).outputToolIdToAgentId = s.outputToolIdToAgentId := by
  unfold updateAsyncDomState
  split <;> rfl

@[simp] theorem updateAsyncDomState_sync (s : ManagerState) (sub : SubagentInfo) :
    (updateAsyncDomState s sub).syncSubagents = s.syncSubagents := by
  unfold updateAsyncDomState
  split <;> rfl

@[simp] theorem updateAsyncDomState_pendingTasks (s : ManagerState) (sub : SubagentInfo) :
    (updateAsyncDomState s sub).pendingTasks = s.pendingTasks := by
  unfold updateAsyncDomState
  split <;> rfl

theorem createAsyncTask_error_pendingTasks {s s' : ManagerState} {env : RenderEnv}
    {tid : Str} {input : TaskInput} {el : Elem}
    (h : createAsyncTask s env tid input el = .error s') :
    s'.pendingTasks = s.pendingTasks := by
  unfold createAsyncTask at h
  cases henv : env.createAsyncSubagentBlock el tid input <;> rw [henv] at h
  · cases h
    rfl
  · cases h

theorem createAsyncTask_ok_pendingTasks {s s' : ManagerState} {env : RenderEnv}
    {tid : Str} {input : TaskInput} {el : Elem} {info : SubagentInfo}
    {dom : AsyncSubagentState}
    (h : createAsyncTask s env tid input el = .ok (s', info, dom)) :
    s'.pendingTasks = s.pendingTasks := by
  unfold createAsyncTask at h
  cases henv : env.createAsyncSubagentBlock el tid input <;> rw [henv] at h
  · cases h
  · cases h
    rfl

theorem createSyncTask_error_pendingTasks {s s' : ManagerState} {env : RenderEnv}
    {tid : Str} {input : TaskInput} {el : Elem}
    (h : createSyncTask s env tid input el = .error s') :
    s'.pendingTasks = s.pendingTasks := by
  unfold createSyncTask at h
  cases henv : env.createSubagentBlock el tid input <;> rw [henv] at h
  · cases h
    rfl
  · cases h

theorem createSyncTask_ok_pendingTasks {s s' : ManagerState} {env : RenderEnv}
    {tid : Str} {input : TaskInput} {el : Elem} {st : SubagentState}
    (h : createSyncTask s env tid input el = .ok (s', st)) :
    s'.pendingTasks = s.pendingTasks := by
  unfold createSyncTask at h
  cases henv : env.createSubagentBlock el tid input <;> rw [henv] at h
  · cases h
  · cases h
    rfl

/-- An error-flagged retrieval result is never classified still-running. -/
theorem isStillRunning_error_false (result : Str) :
    isStillRunningResult result true = false := by
  unfold isStillRunningResult
  simp

/-! ## The claims -/

/-- C8: `resetStreamingState` clears only the sync-mode per-turn bookkeeping
(the sync subagent map and the buffered pending-task map), leaving every
async tracking structure untouched, while `clear` additionally empties all of
the async tracking structures. -/
theorem reset_clears_sync_only_and_clear_drops_async (s : ManagerState) :
    (resetStreamingState s).syncSubagents = [] ∧
    (resetStreamingState s).pendingTasks = [] ∧
    (resetStreamingState s).pendingAsyncSubagents = s.pendingAsyncSubagents ∧
    (resetStreamingState s).activeAsyncSubagents = s.activeAsyncSubagents ∧
    (resetStreamingState s).taskIdToAgentId = s.taskIdToAgentId ∧
    (resetStreamingState s).outputToolIdToAgentId = s.outputToolIdToAgentId ∧
    (resetStreamingState s).asyncDomStates = s.asyncDomStates ∧
    (clear s).syncSubagents = [] ∧
    (clear s).pendingTasks = [] ∧
    (clear s).pendingAsyncSubagents = [] ∧
    (clear s).activeAsyncSubagents = [] ∧
    (clear s).taskIdToAgentId = [] ∧
    (clear s).outputToolIdToAgentId = [] ∧
    (clear s).asyncDomStates = [] :=
  ⟨rfl, rfl, rfl, rfl, rfl, rfl, rfl, rfl, rfl, rfl, rfl, rfl, rfl, rfl⟩

/-- C9: promoting a buffered pending task whose rendering throws swallows the
exception (`renderPendingTask` is total and yields `none` when both creators
throw) and still removes the pending-task bookkeeping entry for that id. -/
theorem render_failure_still_clears_pending (s : ManagerState) (env : RenderEnv)
    (toolId : Str) (elOverride : Option Elem) (pending : PendingToolCall)
    (targetEl : Elem)
    (hpend : mapGet s.pendingTasks toolId = some pending)
    (hel : elOverride.orElse (fun _ => pending.parentEl) = some targetEl) :
    mapGet (renderPendingTask s env toolId elOverride).1.pendingTasks toolId = none ∧
    ((∀ el' inp, env.createAsyncSubagentBlock el' pending.toolCall.id inp = .error () ∧
        env.createSubagentBlock el' pending.toolCall.id inp = .error ()) →
      (renderPendingTask s env toolId elOverride).2 = none) := by
  simp only [renderPendingTask, hpend, hel]
  by_cases hrib : pending.toolCall.input.run_in_background = some true
  · rw [if_pos hrib]
    cases hc : createAsyncTask
        { s with pendingTasks := mapDelete s.pendingTasks toolId } env
        pending.toolCall.id pending.toolCall.input targetEl with
    | error s2 =>
      refine ⟨?_, fun _ => rfl⟩
      rw [createAsyncTask_error_pendingTasks hc]
      exact mapGet_mapDelete_self _ _
    | ok out =>
      obtain ⟨s2, info, dom⟩ := out
      refine ⟨?_, ?_⟩
      · show mapGet s2.pendingTasks toolId = none
        rw [createAsyncTask_ok_pendingTasks hc]
        exact mapGet_mapDelete_self _ _
      · intro hthrow
        exfalso
        unfold createAsyncTask at hc
        rw [(hthrow targetEl pending.toolCall.input).1] at hc
        cases hc
  · rw [if_neg hrib]
    cases hc : createSyncTask
        { s with pendingTasks := mapDelete s.pendingTasks toolId } env
        pending.toolCall.id pending.toolCall.input targetEl with
    | error s2 =>
      refine ⟨?_, fun _ => rfl⟩
      rw [createSyncTask_error_pendingTasks hc]
      exact mapGet_mapDelete_self _ _
    | ok out =>
      obtain ⟨s2, st⟩ := out
      refine ⟨?_, ?_⟩
      · show mapGet s2.pendingTasks toolId = none
        rw [createSyncTask_ok_pendingTasks hc]
        exact mapGet_mapDelete_self _ _
      · intro hthrow
        exfalso
        unfold createSyncTask at hc
        rw [(hthrow targetEl pending.toolCall.input).2] at hc
        cases hc

/-- A buffered pending task for the C9 witness. -/
def c9PendingEntry : PendingToolCall :=
  ⟨{ id := str "task-1", name := str "Task", input := {}, status := .running,
     isExpanded := false }, some 7⟩

/-- A manager state holding one buffered pending task. -/
def c9State : ManagerState :=
  { pendingTasks := [(str "task-1", c9PendingEntry)] }

/-- A rendering collaborator that always throws. -/
def throwingEnv : RenderEnv :=
  { createSubagentBlock := fun _ _ _ => .error (),
    createAsyncSubagentBlock := fun _ _ _ => .error () }

/-- C9 witness: with a concrete buffered task and a renderer that throws, the
promotion returns `none` and the bookkeeping entry is removed. -/
theorem render_failure_still_clears_pending_witness :
    mapGet (renderPendingTask c9State throwingEnv (str "task-1") none).1.pendingTasks
      (str "task-1") = none ∧
    (renderPendingTask c9State throwingEnv (str "task-1") none).2 = none := by
  have h := render_failure_still_clears_pending c9State throwingEnv (str "task-1")
    none c9PendingEntry 7 (by decide) rfl
  exact ⟨h.1, h.2 (fun el' inp => ⟨rfl, rfl⟩)⟩

/-- C10: an error-flagged "retrieve output" result is never classified as
still running, whatever the payload, so it always finalizes a running async
record to terminal `error`. -/
theorem error_poll_finalizes_to_error :
    (∀ result, isStillRunningResult result true = false) ∧
    (∀ (s : ManagerState) (toolId result : Str) (now : Nat) (aid : Str)
        (sub : SubagentInfo),
      mapGet s.outputToolIdToAgentId toolId = some aid →
      aid.isEmpty = false →
      mapGet s.activeAsyncSubagents aid = some sub →
      sub.asyncStatus = some AsyncStatus.running →
      (handleAgentOutputToolResult s toolId result true now).2.1 =
        some { sub with
          agentId := jsOrStr sub.agentId (some aid),
          asyncStatus := some AsyncStatus.error,
          status := ToolStatus.error,
          result := some (extractAgentResult result aid),
          completedAt := some now } ∧
      mapGet (handleAgentOutputToolResult s toolId result true now).1.activeAsyncSubagents
        aid = none ∧
      (handleAgentOutputToolResult s toolId result true now).2.2 =
        (handleAgentOutputToolResult s toolId result true now).2.1.toList) := by
  refine ⟨isStillRunning_error_false, ?_⟩
  intro s toolId result now aid sub hmap haid hsub hrun
  have hfound : lookupOutputSubagent s toolId result = some (aid, sub) := by
    simp only [lookupOutputSubagent, hmap, haid, Bool.false_eq_true, if_false,
      hsub, Option.map_some']
  simp only [handleAgentOutputToolResult, hfound]
  rw [if_neg (not_not_intro
    (show (linkedSub sub aid).asyncStatus = some AsyncStatus.running from hrun))]
  rw [if_neg (by rw [isStillRunning_error_false]; exact Bool.false_ne_true)]
  refine ⟨rfl, ?_, rfl⟩
  simp only [updateAsyncDomState_active]
  exact mapGet_mapDelete_self _ _

/-- A running active record for the C10 witness. -/
def c10Sub : SubagentInfo :=
  { id := str "t1", description := str "d", prompt := str "p", mode := .async,
    status := .running, asyncStatus := some .running, agentId := some (str "aa11") }

/-- A manager state polling that record. -/
def c10State : ManagerState :=
  { activeAsyncSubagents := [(str "aa11", c10Sub)],
    outputToolIdToAgentId := [(str "out1", str "aa11")] }

/-- C10 witness: a concrete error-flagged poll (whose payload even says
`not_ready`) finalizes the running record to `error`. -/
theorem error_poll_finalizes_to_error_witness :
    (handleAgentOutputToolResult c10State (str "out1") (str "not_ready") true 3).2.1 =
      some { c10Sub with
        asyncStatus := some AsyncStatus.error,
        status := ToolStatus.error,
        result := some (str "not_ready"),
        completedAt := some 3 } ∧
    mapGet (handleAgentOutputToolResult c10State (str "out1") (str "not_ready") true
      3).1.activeAsyncSubagents (str "aa11") = none := by
  have h := error_poll_finalizes_to_error.2 c10State (str "out1") (str "not_ready") 3
    (str "aa11") c10Sub rfl rfl rfl rfl
  refine ⟨?_, h.2.1⟩
  rw [h.1]
  decide

/-- C3 counterexample: on the JSON document `\x7b"id":"deadbeef plus more"\x7d`
the code's extraction returns `deadbeef`, captured by the bare-hex regex
pattern, whereas extraction that tries structured JSON first (as the spec
words it) would return the whole `id` field — so the code does not attempt
JSON parsing first. -/
theorem parse_order_counterexample :
    parseAgentId (str "\x7b\"id\":\"deadbeef plus more\"\x7d") = some (str "deadbeef") ∧
    parseAgentIdSpecOrder (str "\x7b\"id\":\"deadbeef plus more\"\x7d") =
      some (str "deadbeef plus more") ∧
    ¬ parseAgentId (str "\x7b\"id\":\"deadbeef plus more\"\x7d") =
      parseAgentIdSpecOrder (str "\x7b\"id\":\"deadbeef plus more\"\x7d") := by
  refine ⟨by decide, by decide, by decide⟩

/-- C3 amended: agent-id extraction first tries the prioritized
regular-expression patterns and only if none matches attempts structured JSON
parsing; a result from which no id can be extracted transitions the subtask
to terminal `error` with a diagnostic containing the result truncated to a
bounded length (at most 103 characters), with one notification — never a
silent drop. -/
theorem parse_order_amended :
    (∀ result cap, tryRegexPatterns result = some cap → parseAgentId result = some cap) ∧
    (∀ result, tryRegexPatterns result = none →
      parseAgentId result = parseAgentIdJson result) ∧
    (∀ result, (truncateResult result).length ≤ 103) ∧
    (∀ (s : ManagerState) (tid result : Str) (now : Nat) (sub : SubagentInfo),
      mapGet s.pendingAsyncSubagents tid = some sub →
      parseAgentId result = none →
      (handleTaskToolResult s tid result false now).2 =
        [{ sub with
            asyncStatus := some AsyncStatus.error,
            status := ToolStatus.error,
            result := some (str "Failed to parse agent_id. Result: " ++ truncateResult result),
            completedAt := some now }] ∧
      mapGet (handleTaskToolResult s tid result false now).1.pendingAsyncSubagents
        tid = none) := by
  refine ⟨?_, ?_, ?_, ?_⟩
  · intro result cap h
    unfold parseAgentId
    rw [h]
  · intro result h
    unfold parseAgentId
    rw [h]
  · intro result
    unfold truncateResult
    by_cases h : result.length > 100
    · rw [if_pos h]
      simp [str]
    · rw [if_neg h]
      omega
  · intro s tid result now sub hget hparse
    simp only [handleTaskToolResult, hget, Bool.false_eq_true, if_false, hparse,
      transitionToError]
    refine ⟨by trivial, ?_⟩
    simp only [updateAsyncDomState_pending]
    exact mapGet_mapDelete_self _ _

/-- A pending async record for the C3 witness. -/
def c3Sub : SubagentInfo :=
  { id := str "t3", description := str "d", prompt := str "p", mode := .async,
    status := .running, asyncStatus := some .pending }

/-- A manager state with that record awaiting its agent id. -/
def c3State : ManagerState :=
  { pendingAsyncSubagents := [(str "t3", c3Sub)] }

/-- C3 witness: the amended statement at concrete inputs — a regex capture
wins, and an id-free free-text result yields the terminal error with the
truncated diagnostic. -/
theorem parse_order_amended_witness :
    parseAgentId (str "agent_id: f00dcafe") = some (str "f00dcafe") ∧
    (handleTaskToolResult c3State (str "t3") (str "no id here at all") false 4).2 =
      [{ c3Sub with
          asyncStatus := some AsyncStatus.error,
          status := ToolStatus.error,
          result := some (str "Failed to parse agent_id. Result: no id here at all"),
          completedAt := some 4 }] := by
  constructor
  · exact parse_order_amended.1 (str "agent_id: f00dcafe") (str "f00dcafe") (by decide)
  · have h := (parse_order_amended.2.2.2 c3State (str "t3") (str "no id here at all")
      4 c3Sub (by decide) (by decide)).1
    rw [h]
    decide

/-! ## C6: the still-running classification -/

/-- The top-level `status`/`retrieval_status` field holds a recognized
non-terminal value. -/
def jsonStatusNonTerminal (parsed : Json) : Bool :=
  let status := jsOrVal (jsGetField parsed (str "retrieval_status"))
    (jsGetField parsed (str "status"))
  statusIs status "not_ready" || statusIs status "running" || statusIs status "pending"

/-- The `agents` map is present, non-empty, and some per-agent status is a
recognized non-terminal value. -/
def someAgentNonTerminal (parsed : Json) : Bool :=
  match jsGetField parsed (str "agents") with
  | some a =>
    (jsTruthy a && (jsKeys a).length > 0) &&
      (jsValues a).any (fun x =>
        let st := agentStatusLower x
        st = str "running" || st = str "pending" || st = str "not_ready")
  | none => false

/-- The non-JSON text contains the literal `not_ready` / `not ready` token. -/
def textTokenNonTerminal (payload : Str) : Bool :=
  containsSub (toLowerStr payload) (str "not_ready") ||
    containsSub (toLowerStr payload) (str "not ready")

/-- The non-JSON text embeds a `<status>` tag holding a non-terminal value. -/
def statusTagNonTerminal (payload : Str) : Bool :=
  match xmlStatusMatch (toLowerStr payload) with
  | some cap =>
    trimStr cap = str "running" || trimStr cap = str "pending" ||
      trimStr cap = str "not_ready"
  | none => false

/-- The payload parses as a JSON document on which property access is safe
(i.e. not `null`). -/
def parsesAsJsonDoc (payload : Str) : Bool :=
  match parseJson payload with
  | some .null => false
  | some _ => true
  | none => false

theorem stillRunningJson_eq (parsed : Json) :
    stillRunningJson parsed =
      (jsonStatusNonTerminal parsed || someAgentNonTerminal parsed) := by
  unfold stillRunningJson jsonStatusNonTerminal someAgentNonTerminal
  cases hag : jsGetField parsed (str "agents") with
  | none =>
    by_cases hs : (statusIs (jsOrVal (jsGetField parsed (str "retrieval_status"))
        (jsGetField parsed (str "status"))) "not_ready" ||
        statusIs (jsOrVal (jsGetField parsed (str "retrieval_status"))
        (jsGetField parsed (str "status"))) "running" ||
        statusIs (jsOrVal (jsGetField parsed (str "retrieval_status"))
        (jsGetField parsed (str "status"))) "pending") = true
    · simp [hs]
    · simp only [Bool.not_eq_true] at hs
      simp [hs]
  | some a =>
    by_cases hs : (statusIs (jsOrVal (jsGetField parsed (str "retrieval_status"))
        (jsGetField parsed (str "status"))) "not_ready" ||
        statusIs (jsOrVal (jsGetField parsed (str "retrieval_status"))
        (jsGetField parsed (str "status"))) "running" ||
        statusIs (jsOrVal (jsGetField parsed (str "retrieval_status"))
        (jsGetField parsed (str "status"))) "pending") = true
    · simp [hs]
    · simp only [Bool.not_eq_true] at hs
      by_cases hag2 : (jsTruthy a && (jsKeys a).length > 0) = true
      · simp [hs, hag2]
      · simp only [Bool.not_eq_true] at hag2
        simp [hs, hag2]

theorem stillRunningTextScan_eq (payload : Str) :
    stillRunningTextScan payload =
      (textTokenNonTerminal payload || statusTagNonTerminal payload) := by
  unfold stillRunningTextScan textTokenNonTerminal statusTagNonTerminal
  by_cases ht : (containsSub (toLowerStr payload) (str "not_ready") ||
      containsSub (toLowerStr payload) (str "not ready")) = true
  · simp [ht]
  · simp only [Bool.not_eq_true] at ht
    simp only [ht, if_false, Bool.false_or]
    rfl

theorem parsesAsJsonDoc_true {payload : Str} {parsed : Json}
    (hp : parseJson payload = some parsed) (hnn : ¬ parsed = Json.null) :
    parsesAsJsonDoc payload = true := by
  unfold parsesAsJsonDoc
  rw [hp]
  cases parsed
  · exact absurd rfl hnn
  all_goals rfl

/-- The claim's enumeration of the signals that may classify a polling result
as still running: a non-empty payload that either parses as JSON with a
recognized non-terminal top-level or per-agent status, or is not a JSON
document but carries a `not_ready` token or a non-terminal `<status>` tag. -/
def stillRunningEvidence (result : Str) : Prop :=
  (trimStr result).isEmpty = false ∧
  ((∃ parsed, parseJson (unwrapTextPayload (trimStr result)) = some parsed ∧
     (jsonStatusNonTerminal parsed = true ∨ someAgentNonTerminal parsed = true)) ∨
   (parsesAsJsonDoc (unwrapTextPayload (trimStr result)) = false ∧
    (textTokenNonTerminal (unwrapTextPayload (trimStr result)) = true ∨
     statusTagNonTerminal (unwrapTextPayload (trimStr result)) = true)))

theorem still_running_json_case {result : Str} {parsed : Json}
    (hp : parseJson (unwrapTextPayload (trimStr result)) = some parsed)
    (hnn : ¬ parsed = Json.null)
    (hempty : (trimStr result).isEmpty = false) :
    stillRunningJson parsed = true ↔ stillRunningEvidence result := by
  rw [stillRunningJson_eq]
  have hdoc := parsesAsJsonDoc_true hp hnn
  constructor
  · intro h
    exact ⟨hempty, Or.inl ⟨parsed, hp, by simpa using h⟩⟩
  · rintro ⟨_, (⟨p', hp', hev⟩ | ⟨hdoc', _⟩)⟩
    · rw [hp] at hp'
      injection hp' with hpe
      subst hpe
      rcases hev with h | h <;> simp [h]
    · rw [hdoc] at hdoc'
      cases hdoc'

theorem still_running_text_case {result : Str}
    (hdoc : parsesAsJsonDoc (unwrapTextPayload (trimStr result)) = false)
    (hnp : ∀ parsed, ¬ parseJson (unwrapTextPayload (trimStr result)) = some parsed ∨
      parsed = Json.null)
    (hempty : (trimStr result).isEmpty = false) :
    stillRunningTextScan (unwrapTextPayload (trimStr result)) = true ↔
      stillRunningEvidence result := by
  rw [stillRunningTextScan_eq]
  constructor
  · intro h
    exact ⟨hempty, Or.inr ⟨hdoc, by simpa using h⟩⟩
  · rintro ⟨_, (⟨p', hp', hev⟩ | ⟨_, hev⟩)⟩
    · rcases hnp p' with hc | hc
      · exact absurd hp' hc
      · subst hc
        simp [jsonStatusNonTerminal, someAgentNonTerminal, jsGetField,
          statusIs, jsOrVal] at hev
    · rcases hev with h | h <;> simp [h]

/-- C6: a non-error polling result is classified "still running" exactly when
the unwrapped payload is a JSON document whose top-level status field or some
per-agent status holds a recognized non-terminal value, or when the payload
is not JSON and its text carries a `not_ready`/`not ready` token or a
`<status>` tag with a non-terminal value; every other (empty, ambiguous or
unparseable) result is classified terminal. -/
theorem still_running_classification (result : Str) :
    isStillRunningResult result false = true ↔ stillRunningEvidence result := by
  have hmain : isStillRunningResult result false =
      (if (trimStr result).isEmpty = true then false
       else
        match parseJson (unwrapTextPayload (trimStr result)) with
        | some .null => stillRunningTextScan (unwrapTextPayload (trimStr result))
        | some parsed => stillRunningJson parsed
        | none => stillRunningTextScan (unwrapTextPayload (trimStr result))) := rfl
  rw [hmain]
  by_cases hempty : (trimStr result).isEmpty = true
  · rw [if_pos hempty]
    constructor
    · intro h
      cases h
    · rintro ⟨hne, _⟩
      rw [hempty] at hne
      exact absurd hne (by decide)
  · rw [if_neg hempty]
    have hempty' : (trimStr result).isEmpty = false := by
      revert hempty
      cases (trimStr result).isEmpty <;> simp
    cases hp : parseJson (unwrapTextPayload (trimStr result)) with
    | none =>
      have hdoc : parsesAsJsonDoc (unwrapTextPayload (trimStr result)) = false := by
        unfold parsesAsJsonDoc
        rw [hp]
      exact still_running_text_case hdoc
        (fun parsed => Or.inl (by rw [hp]; intro hc; cases hc)) hempty'
    | some parsed =>
      cases parsed with
      | null =>
        have hdoc : parsesAsJsonDoc (unwrapTextPayload (trimStr result)) = false := by
          unfold parsesAsJsonDoc
          rw [hp]
        refine still_running_text_case hdoc (fun p' => ?_) hempty'
        rw [hp]
        by_cases hc : p' = Json.null
        · exact Or.inr hc
        · refine Or.inl ?_
          intro hc'
          injection hc' with hc''
          exact hc hc''.symm
      | bool b => exact still_running_json_case hp (by intro h; cases h) hempty'
      | num l => exact still_running_json_case hp (by intro h; cases h) hempty'
      | strv sv => exact still_running_json_case hp (by intro h; cases h) hempty'
      | arr xs => exact still_running_json_case hp (by intro h; cases h) hempty'
      | obj fields => exact still_running_json_case hp (by intro h; cases h) hempty'

/-! ## C1: the session-end orphan sweep -/

theorem entry_eq_of_keys_nodup {α : Type} {m : List (Str × α)}
    (hnd : (m.map Prod.fst).Nodup) {e f : Str × α}
    (he : e ∈ m) (hf : f ∈ m) (hk : e.1 = f.1) : e = f := by
  induction m with
  | nil => cases he
  | cons g rest ih =>
    simp only [List.map_cons, List.nodup_cons, List.mem_map] at hnd
    rcases List.mem_cons.mp he with rfl | he' <;>
      rcases List.mem_cons.mp hf with rfl | hf'
    · rfl
    · exact absurd ⟨f, hf', hk.symm⟩ hnd.1
    · exact absurd ⟨e, he', hk⟩ hnd.1
    · exact ih hnd.2 he' hf'

/-- A DOM entry that is neither keyed by the updated record's id nor carries
its agent id is untouched by `updateAsyncDomState`. -/
theorem updateAsyncDomState_preserves_entry {s : ManagerState} {sub : SubagentInfo}
    {e : Str × AsyncSubagentState}
    (hnd : (s.asyncDomStates.map Prod.fst).Nodup)
    (he : e ∈ s.asyncDomStates)
    (h1 : ¬ e.1 = sub.id) (h2 : ¬ e.2.info.agentId = sub.agentId) :
    e ∈ (updateAsyncDomState s sub).asyncDomStates := by
  unfold updateAsyncDomState
  cases hkey : (if mapHas s.asyncDomStates sub.id then some sub.id
      else (s.asyncDomStates.find? (fun d => d.2.info.agentId = sub.agentId)).map (·.1)) with
  | none => exact he
  | some k =>
    have hke : ¬ e.1 = k := by
      by_cases hhas : mapHas s.asyncDomStates sub.id
      · rw [if_pos hhas] at hkey
        injection hkey with hkey'
        rw [← hkey']
        exact h1
      · rw [if_neg hhas] at hkey
        cases hff : s.asyncDomStates.find? (fun d => d.2.info.agentId = sub.agentId) with
        | none => rw [hff] at hkey; cases hkey
        | some f =>
          rw [hff] at hkey
          injection hkey with hkey'
          have hfmem := List.mem_of_find?_eq_some hff
          have hfprop := List.find?_some hff
          simp only [decide_eq_true_eq] at hfprop
          intro hek
          have : e = f := entry_eq_of_keys_nodup hnd he hfmem (by rw [hek, ← hkey'])
          rw [this] at h2
          exact h2 hfprop
    show e ∈ mapUpdate s.asyncDomStates k
      (fun ast => { ast with info := sub })
    unfold mapUpdate
    refine List.mem_map.mpr ⟨e, he, ?_⟩
    rw [if_neg hke]

/-- The DOM-state key set is unchanged by `updateAsyncDomState`. -/
theorem updateAsyncDomState_keys (s : ManagerState) (sub : SubagentInfo) :
    (updateAsyncDomState s sub).asyncDomStates.map Prod.fst =
      s.asyncDomStates.map Prod.fst := by
  unfold updateAsyncDomState
  split
  · rfl
  · rename_i k heq
    show (mapUpdate s.asyncDomStates k
      (fun ast => { ast with info := sub })).map Prod.fst = _
    unfold mapUpdate
    rw [List.map_map]
    refine List.map_congr_left ?_
    intro e _
    by_cases hk : e.1 = k
    · simp [Function.comp, hk]
    · simp [Function.comp, hk]

/-- C1: the orphan sweep transitions exactly the still-pending and
still-running async records to `orphaned`/`error` with the fixed result and a
completion timestamp, fires the notification callback exactly once per such
record, empties the async tracking maps, and leaves the DOM entries of
unrelated (e.g. already completed) records untouched. -/
theorem orphan_sweep_spec (s : ManagerState) (now : Nat)
    (hpend : ∀ e ∈ s.pendingAsyncSubagents,
      e.2.asyncStatus = some AsyncStatus.pending)
    (hdomnd : (s.asyncDomStates.map Prod.fst).Nodup) :
    (∀ r ∈ (orphanAllActive s now).2.1,
      r.asyncStatus = some AsyncStatus.orphaned ∧ r.status = ToolStatus.error ∧
      r.result = some (str "Conversation ended before task completed") ∧
      r.completedAt = some now) ∧
    (∀ e ∈ s.pendingAsyncSubagents,
      markOrphanedInfo now e.2 ∈ (orphanAllActive s now).2.1) ∧
    (∀ e ∈ s.activeAsyncSubagents, e.2.asyncStatus = some AsyncStatus.running →
      markOrphanedInfo now e.2 ∈ (orphanAllActive s now).2.1) ∧
    (∀ r ∈ (orphanAllActive s now).2.1, ∃ o,
      ((o ∈ mapValues s.pendingAsyncSubagents ∧ o.asyncStatus = some AsyncStatus.pending) ∨
       (o ∈ mapValues s.activeAsyncSubagents ∧ o.asyncStatus = some AsyncStatus.running)) ∧
      r = markOrphanedInfo now o) ∧
    (orphanAllActive s now).2.2 = (orphanAllActive s now).2.1 ∧
    (orphanAllActive s now).2.1.length = s.pendingAsyncSubagents.length +
      ((mapValues s.activeAsyncSubagents).filter
        (fun r => r.asyncStatus = some AsyncStatus.running)).length ∧
    (orphanAllActive s now).1.pendingAsyncSubagents = [] ∧
    (orphanAllActive s now).1.activeAsyncSubagents = [] ∧
    (orphanAllActive s now).1.taskIdToAgentId = [] ∧
    (orphanAllActive s now).1.outputToolIdToAgentId = [] ∧
    (∀ e ∈ s.asyncDomStates,
      (∀ r ∈ (orphanAllActive s now).2.1, ¬ e.1 = r.id ∧ ¬ e.2.info.agentId = r.agentId) →
      e ∈ (orphanAllActive s now).1.asyncDomStates) := by
  refine ⟨?_, ?_, ?_, ?_, rfl, ?_, rfl, rfl, rfl, rfl, ?_⟩
  · intro r hr
    unfold orphanAllActive at hr
    simp only [List.mem_append, List.mem_map] at hr
    rcases hr with ⟨o, _, rfl⟩ | ⟨o, _, rfl⟩ <;>
      exact ⟨rfl, rfl, rfl, rfl⟩
  · intro e he
    unfold orphanAllActive
    simp only [List.mem_append, List.mem_map]
    exact Or.inl ⟨e.2, List.mem_map.mpr ⟨e, he, rfl⟩, rfl⟩
  · intro e he hrun
    unfold orphanAllActive
    simp only [List.mem_append, List.mem_map]
    refine Or.inr ⟨e.2, List.mem_filter.mpr ⟨List.mem_map.mpr ⟨e, he, rfl⟩, ?_⟩, rfl⟩
    simp [hrun]
  · intro r hr
    unfold orphanAllActive at hr
    simp only [List.mem_append, List.mem_map] at hr
    rcases hr with ⟨o, ho, rfl⟩ | ⟨o, ho, rfl⟩
    · refine ⟨o, Or.inl ⟨ho, ?_⟩, rfl⟩
      rcases List.mem_map.mp ho with ⟨e, he, rfl⟩
      exact hpend e he
    · rcases List.mem_filter.mp ho with ⟨hom, host⟩
      refine ⟨o, Or.inr ⟨hom, by simpa using host⟩, rfl⟩
  · unfold orphanAllActive
    simp [mapValues]
  · intro e he hun
    unfold orphanAllActive
    have main : ∀ (l : List SubagentInfo) (st : ManagerState),
        (st.asyncDomStates.map Prod.fst).Nodup → e ∈ st.asyncDomStates →
        (∀ r ∈ l, ¬ e.1 = r.id ∧ ¬ e.2.info.agentId = r.agentId) →
        e ∈ (l.foldl updateAsyncDomState st).asyncDomStates := by
      intro l
      induction l with
      | nil => intro st _ hmem _; exact hmem
      | cons r rest ih =>
        intro st hnd hmem hl
        have hr := hl r (List.mem_cons_self _ _)
        refine ih (updateAsyncDomState st r) ?_ ?_ ?_
        · rw [updateAsyncDomState_keys]
          exact hnd
        · exact updateAsyncDomState_preserves_entry hnd hmem hr.1 hr.2
        · intro r' hr'
          exact hl r' (List.mem_cons_of_mem _ hr')
    exact main _ s hdomnd he hun

/-- A running async record for the C1 witness. -/
def c1Run (tid aid : String) : SubagentInfo :=
  { id := str tid, description := str "d", prompt := str "p", mode := .async,
    status := .running, asyncStatus := some .running, agentId := some (str aid) }

/-- A completed async record for the C1 witness. -/
def c1Done : SubagentInfo :=
  { id := str "t3", description := str "d", prompt := str "p", mode := .async,
    status := .completed, asyncStatus := some .completed, agentId := some (str "a3"),
    result := some (str "done") }

/-- Two running tasks tracked in the active map, plus the DOM entry of an
already completed third task. -/
def c1State : ManagerState :=
  { activeAsyncSubagents := [(str "a1", c1Run "t1" "a1"), (str "a2", c1Run "t2" "a2")],
    asyncDomStates :=
      [(str "t1", ⟨1, c1Run "t1" "a1"⟩), (str "t2", ⟨2, c1Run "t2" "a2"⟩),
       (str "t3", ⟨3, c1Done⟩)] }

/-- C1 witness: sweeping two running tasks and one completed task orphans
exactly the two running ones, notifies exactly twice, and leaves the
completed task's DOM entry untouched. -/
theorem orphan_sweep_spec_witness :
    (orphanAllActive c1State 99).2.1 =
      [markOrphanedInfo 99 (c1Run "t1" "a1"), markOrphanedInfo 99 (c1Run "t2" "a2")] ∧
    (orphanAllActive c1State 99).2.2 = (orphanAllActive c1State 99).2.1 ∧
    (orphanAllActive c1State 99).2.1.length = 2 ∧
    (∀ r ∈ (orphanAllActive c1State 99).2.1,
      r.asyncStatus = some AsyncStatus.orphaned ∧ r.status = ToolStatus.error ∧
      r.result = some (str "Conversation ended before task completed") ∧
      r.completedAt = some 99) ∧
    (orphanAllActive c1State 99).1.activeAsyncSubagents = [] ∧
    (str "t3", (⟨3, c1Done⟩ : AsyncSubagentState)) ∈
      (orphanAllActive c1State 99).1.asyncDomStates := by
  have h := orphan_sweep_spec c1State 99 (by intro e he; cases he) (by decide)
  refine ⟨by decide, h.2.2.2.2.1, by decide, h.1, h.2.2.2.2.2.2.2.1, ?_⟩
  refine h.2.2.2.2.2.2.2.2.2.2 (str "t3", ⟨3, c1Done⟩) (by decide) ?_
  intro r hr
  have hr' := h.1 r hr
  constructor
  · intro hid
    rcases h.2.2.2.1 r hr with ⟨o, ho, rfl⟩
    rcases ho with ⟨hom, _⟩ | ⟨hom, _⟩
    · cases hom
    · simp only [c1State, mapValues, List.map_cons, List.map_nil, List.mem_cons,
        List.not_mem_nil, or_false] at hom
      rcases hom with rfl | rfl <;> revert hid <;> decide
  · intro hag
    rcases h.2.2.2.1 r hr with ⟨o, ho, rfl⟩
    rcases ho with ⟨hom, _⟩ | ⟨hom, _⟩
    · cases hom
    · simp only [c1State, mapValues, List.map_cons, List.map_nil, List.mem_cons,
        List.not_mem_nil, or_false] at hom
      rcases hom with rfl | rfl <;> revert hag <;> decide

/-! ## C4: async acceptance -/

/-- C4: a pending async record receiving its first non-error tool-result
`\x7b"agent_id":"abc123"\x7d` transitions `pending → running` with
`agentId = "abc123"`, moving from the pending map to the active map keyed by
that agent id (with the task-id mapping recorded and one notification
fired); an unparseable free-text result with no recognizable id transitions
it directly to `error`. -/
theorem async_acceptance (s : ManagerState) (tid : Str) (rec : SubagentInfo)
    (now : Nat)
    (hget : mapGet s.pendingAsyncSubagents tid = some rec)
    (_hpending : rec.asyncStatus = some AsyncStatus.pending) :
    (mapGet (handleTaskToolResult s tid (str "\x7b\"agent_id\":\"abc123\"\x7d")
        false now).1.pendingAsyncSubagents tid = none ∧
     mapGet (handleTaskToolResult s tid (str "\x7b\"agent_id\":\"abc123\"\x7d")
        false now).1.activeAsyncSubagents (str "abc123") =
       some { rec with
         asyncStatus := some AsyncStatus.running,
         agentId := some (str "abc123"),
         startedAt := some now } ∧
     mapGet (handleTaskToolResult s tid (str "\x7b\"agent_id\":\"abc123\"\x7d")
        false now).1.taskIdToAgentId tid = some (str "abc123") ∧
     (handleTaskToolResult s tid (str "\x7b\"agent_id\":\"abc123\"\x7d")
        false now).2 =
       [{ rec with
           asyncStatus := some AsyncStatus.running,
           agentId := some (str "abc123"),
           startedAt := some now }]) ∧
    (mapGet (handleTaskToolResult s tid (str "The task could not be started")
        false now).1.pendingAsyncSubagents tid = none ∧
     (handleTaskToolResult s tid (str "The task could not be started")
        false now).2 =
       [{ rec with
           asyncStatus := some AsyncStatus.error,
           status := ToolStatus.error,
           result := some (str "Failed to parse agent_id. Result: The task could not be started"),
           completedAt := some now }]) := by
  have hp1 : parseAgentId (str "\x7b\"agent_id\":\"abc123\"\x7d") =
      some (str "abc123") := by decide
  have hp2 : parseAgentId (str "The task could not be started") = none := by decide
  constructor
  · simp only [handleTaskToolResult, hget, Bool.false_eq_true, if_false, hp1,
      updateAsyncDomState_pending, updateAsyncDomState_active,
      updateAsyncDomState_taskIds]
    refine ⟨mapGet_mapDelete_self _ _, mapGet_mapSet_self _ _ _,
      mapGet_mapSet_self _ _ _, by trivial⟩
  · simp only [handleTaskToolResult, hget, Bool.false_eq_true, if_false, hp2,
      transitionToError, updateAsyncDomState_pending]
    have htr : truncateResult (str "The task could not be started") =
        str "The task could not be started" := by decide
    rw [htr]
    exact ⟨mapGet_mapDelete_self _ _, by trivial⟩

/-- C4 witness: the acceptance theorem at a concrete pending record. -/
theorem async_acceptance_witness :
    mapGet (handleTaskToolResult c3State (str "t3")
      (str "\x7b\"agent_id\":\"abc123\"\x7d") false 7).1.activeAsyncSubagents
      (str "abc123") =
      some { c3Sub with
        asyncStatus := some AsyncStatus.running,
        agentId := some (str "abc123"),
        startedAt := some 7 } ∧
    (handleTaskToolResult c3State (str "t3") (str "no id present") false 7).2 =
      [{ c3Sub with
          asyncStatus := some AsyncStatus.error,
          status := ToolStatus.error,
          result := some (str "Failed to parse agent_id. Result: no id present"),
          completedAt := some 7 }] := by
  have h := async_acceptance c3State (str "t3") c3Sub 7 (by decide) (by decide)
  refine ⟨h.1.2.1, ?_⟩
  decide

/-! ## C5: the outbound channel's merge and attachment-replacement rules -/

/-- C5: with an active turn and an empty queue, enqueueing two text messages
yields exactly one queued entry whose content is the first text, the
separator, then the second, delivered on the next pull; enqueueing two
attachment messages yields exactly one queued entry equal to the second, with
a "replaced" warning. -/
theorem channel_merge_and_attachment (s : ChannelState) (maxLen : Nat)
    (a b d1 d2 : Str)
    (hactive : s.turnActive = true) (hopen : s.closed = false)
    (hq : s.queue = [])
    (hlen : (a ++ mergeSeparator ++ b).length ≤ maxLen) :
    (∃ s1 s2,
      enqueue maxLen s (.text a) = .ok (s1, []) ∧
      enqueue maxLen s1 (.text b) = .ok (s2, []) ∧
      s2.queue = [.text (a ++ mergeSeparator ++ b)] ∧
      pullChannel s2 = some (.text (a ++ mergeSeparator ++ b),
        { s2 with queue := [], turnActive := true })) ∧
    (∃ s1 s2,
      enqueue maxLen s (.attachment d1) = .ok (s1, []) ∧
      enqueue maxLen s1 (.attachment d2) = .ok (s2, [.attachmentReplaced]) ∧
      s2.queue = [.attachment d2]) := by
  obtain ⟨q, ta, cl⟩ := s
  simp only at hactive hopen hq
  subst hactive hopen hq
  constructor
  · refine ⟨⟨[.text a], true, false⟩, ⟨[.text (a ++ mergeSeparator ++ b)], true, false⟩,
      rfl, ?_, rfl, rfl⟩
    have hle : ¬ ((a ++ mergeSeparator ++ b).length > maxLen) := by omega
    simp only [enqueue, List.filterMap_cons, List.filterMap_nil, if_true,
      List.getLast?_singleton]
    rw [if_neg hle]
    simp
  · exact ⟨⟨[.attachment d1], true, false⟩, ⟨[.attachment d2], true, false⟩,
      rfl, rfl, rfl⟩

/-- C5 witness: the channel scenario at concrete strings. -/
theorem channel_merge_and_attachment_witness :
    (∃ s1 s2,
      enqueue 10000 ⟨[], true, false⟩ (.text (str "second")) = .ok (s1, []) ∧
      enqueue 10000 s1 (.text (str "third")) = .ok (s2, []) ∧
      s2.queue = [.text (str "second\n\nthird")] ∧
      pullChannel s2 = some (.text (str "second\n\nthird"),
        { s2 with queue := [], turnActive := true })) ∧
    (∃ s1 s2,
      enqueue 10000 ⟨[], true, false⟩ (.attachment (str "image-one")) = .ok (s1, []) ∧
      enqueue 10000 s1 (.attachment (str "image-two")) = .ok (s2, [.attachmentReplaced]) ∧
      s2.queue = [.attachment (str "image-two")]) := by
  have h := channel_merge_and_attachment ⟨[], true, false⟩ 10000
    (str "second") (str "third") (str "image-one") (str "image-two")
    rfl rfl rfl (by decide)
  have hsep : str "second" ++ mergeSeparator ++ str "third" = str "second\n\nthird" := by
    decide
  rw [hsep] at h
  exact h

/-! ## C2: flush-before-text ordering -/

/-- A processor state with some committed blocks and nothing buffered. -/
def initProc (blocks : List ContentBlock) : ProcState :=
  { contentBlocks := blocks, bufferedTools := [], renderedTools := [], textAccum := [] }

/-- The buffered-tool ids evolve exactly like the first-appearance fold. -/
theorem bufferTool_ids (buf : List ToolCallInfo) (id name : Str) (input : TaskInput) :
    (bufferTool buf id name input).map (fun t => t.id) =
      (if (buf.map (fun t => t.id)).any (fun x => x = id) then buf.map (fun t => t.id)
       else buf.map (fun t => t.id) ++ [id]) := by
  have hany : ∀ (l : List ToolCallInfo),
      ((l.map (fun t => t.id)).any (fun x => x = id)) = l.any (fun t => t.id = id) := by
    intro l
    induction l with
    | nil => rfl
    | cons t rest ih => simp [ih]
  unfold bufferTool
  rw [hany]
  by_cases h : buf.any (fun t => t.id = id) = true
  · rw [if_pos h, if_pos h, List.map_map]
    refine List.map_congr_left ?_
    intro t _
    by_cases ht : t.id = id
    · simp [Function.comp, ht]
    · simp [Function.comp, ht]
  · rw [if_neg h, if_neg h]
    simp

/-- Processing only tool_use fragments buffers them (merging in place) and
commits nothing: content blocks, rendered order, and the text accumulator are
untouched. -/
theorem proc_tool_run (ts : List (Str × Str × TaskInput)) (p : ProcState)
    (hta : p.textAccum = []) :
    procEvents p (ts.map (fun t => StreamEvent.toolUse t.1 t.2.1 t.2.2)) =
      { p with bufferedTools :=
          ts.foldl (fun buf t => bufferTool buf t.1 t.2.1 t.2.2) p.bufferedTools } := by
  induction ts generalizing p with
  | nil => rfl
  | cons t rest ih =>
    simp only [List.map_cons, procEvents, List.foldl_cons] at ih ⊢
    have hstep : procEvent p (StreamEvent.toolUse t.1 t.2.1 t.2.2) =
        { p with bufferedTools := bufferTool p.bufferedTools t.1 t.2.1 t.2.2 } := by
      unfold procEvent finalizeText
      rw [hta]
      simp [hta]
    rw [hstep]
    exact ih _ hta

/-- First-appearance order of the buffered ids after a fragment run. -/
theorem buffered_ids_first_appearance (ts : List (Str × Str × TaskInput)) :
    ∀ (buf : List ToolCallInfo),
      (ts.foldl (fun b t => bufferTool b t.1 t.2.1 t.2.2) buf).map (fun t => t.id) =
        ts.foldl (fun acc t => if acc.any (fun x => x = t.1) then acc else acc ++ [t.1])
          (buf.map (fun t => t.id)) := by
  induction ts with
  | nil => intro buf; rfl
  | cons t rest ih =>
    intro buf
    simp only [List.foldl_cons]
    rw [ih, bufferTool_ids]

/-- C2: buffered tool events followed by a text event commit the tool content
blocks before the text block, render the buffered tools in first-appearance
order, and extend — never reorder — the blocks already committed (every event
preserves the committed prefix). -/
theorem flush_before_text (blocks : List ContentBlock)
    (ts : List (Str × Str × TaskInput)) (c : Str)
    (hc : c.isEmpty = false) :
    (procEvents (initProc blocks)
      ((ts.map (fun t => StreamEvent.toolUse t.1 t.2.1 t.2.2)) ++
        [StreamEvent.text c, StreamEvent.done])).contentBlocks =
      blocks ++ (firstAppearance ts).map ContentBlock.toolBlock ++
        [ContentBlock.textBlock c] ∧
    (procEvents (initProc blocks)
      ((ts.map (fun t => StreamEvent.toolUse t.1 t.2.1 t.2.2)) ++
        [StreamEvent.text c, StreamEvent.done])).renderedTools =
      firstAppearance ts ∧
    (∀ (p : ProcState) (e : StreamEvent),
      List.IsPrefix p.contentBlocks (procEvent p e).contentBlocks) := by
  have hrun : procEvents (initProc blocks)
      ((ts.map (fun t => StreamEvent.toolUse t.1 t.2.1 t.2.2)) ++
        [StreamEvent.text c, StreamEvent.done]) =
      procEvent (procEvent (procEvents (initProc blocks)
        (ts.map (fun t => StreamEvent.toolUse t.1 t.2.1 t.2.2)))
        (StreamEvent.text c)) StreamEvent.done := by
    unfold procEvents
    rw [List.foldl_append]
    rfl
  have hbuf := proc_tool_run ts (initProc blocks) rfl
  rw [hrun]
  simp only [initProc] at hbuf ⊢
  rw [hbuf]
  set bt := ts.foldl (fun buf t => bufferTool buf t.1 t.2.1 t.2.2) [] with hbt
  have htext : procEvent (⟨blocks, bt, [], []⟩ : ProcState) (StreamEvent.text c) =
      ⟨blocks ++ bt.map (fun t => ContentBlock.toolBlock t.id), [],
        bt.map (fun t => t.id), c⟩ := by
    unfold procEvent flushTools
    simp
  rw [htext]
  have hcne : ¬ (c.isEmpty = true) := by
    rw [hc]
    exact Bool.false_ne_true
  have hdone : procEvent
      (⟨blocks ++ bt.map (fun t => ContentBlock.toolBlock t.id), [],
        bt.map (fun t => t.id), c⟩ : ProcState) StreamEvent.done =
      ⟨(blocks ++ bt.map (fun t => ContentBlock.toolBlock t.id)) ++
        [ContentBlock.textBlock c], [], bt.map (fun t => t.id), []⟩ := by
    unfold procEvent flushTools finalizeText
    simp only [List.map_nil, List.append_nil]
    rw [if_neg hcne]
  rw [hdone]
  have hfa : bt.map (fun t => t.id) = firstAppearance ts := by
    rw [hbt, buffered_ids_first_appearance ts []]
    rfl
  refine ⟨?_, hfa, ?_⟩
  · show (blocks ++ bt.map (fun t => ContentBlock.toolBlock t.id)) ++
      [ContentBlock.textBlock c] = _
    have hmapcomp : bt.map (fun t => ContentBlock.toolBlock t.id) =
        (bt.map (fun t => t.id)).map ContentBlock.toolBlock := by
      rw [List.map_map]
      rfl
    rw [hmapcomp, hfa]
  · intro p e
    cases e with
    | text c' => exact ⟨_, rfl⟩
    | toolUse id name input =>
      show List.IsPrefix p.contentBlocks (finalizeText p).contentBlocks
      unfold finalizeText
      by_cases h : p.textAccum.isEmpty = true
      · rw [if_pos h]
      · rw [if_neg h]
        exact ⟨_, rfl⟩
    | done =>
      show List.IsPrefix p.contentBlocks (finalizeText (flushTools p)).contentBlocks
      refine List.IsPrefix.trans (show List.IsPrefix p.contentBlocks
        (flushTools p).contentBlocks from ⟨_, rfl⟩) ?_
      unfold finalizeText
      by_cases h : (flushTools p).textAccum.isEmpty = true
      · rw [if_pos h]
      · rw [if_neg h]
        exact ⟨_, rfl⟩

/-- C2 witness: two buffered tools then text at concrete inputs — the tool
blocks precede the text block and render in buffering order. -/
theorem flush_before_text_witness :
    (procEvents (initProc [ContentBlock.toolBlock (str "old")])
      [StreamEvent.toolUse (str "read-1") (str "Read") {},
       StreamEvent.toolUse (str "grep-1") (str "Grep") {},
       StreamEvent.text (str "Hello"), StreamEvent.done]).contentBlocks =
      [ContentBlock.toolBlock (str "old"), ContentBlock.toolBlock (str "read-1"),
       ContentBlock.toolBlock (str "grep-1"), ContentBlock.textBlock (str "Hello")] ∧
    (procEvents (initProc [ContentBlock.toolBlock (str "old")])
      [StreamEvent.toolUse (str "read-1") (str "Read") {},
       StreamEvent.toolUse (str "grep-1") (str "Grep") {},
       StreamEvent.text (str "Hello"), StreamEvent.done]).renderedTools =
      [str "read-1", str "grep-1"] := by
  have h := flush_before_text [ContentBlock.toolBlock (str "old")]
    [(str "read-1", str "Read", {}), (str "grep-1", str "Grep", {})]
    (str "Hello") (by decide)
  have hev : ([StreamEvent.toolUse (str "read-1") (str "Read") {},
      StreamEvent.toolUse (str "grep-1") (str "Grep") {},
      StreamEvent.text (str "Hello"), StreamEvent.done]) =
      (([(str "read-1", str "Read", ({} : TaskInput)),
         (str "grep-1", str "Grep", ({} : TaskInput))].map
          (fun t => StreamEvent.toolUse t.1 t.2.1 t.2.2)) ++
        [StreamEvent.text (str "Hello"), StreamEvent.done]) := rfl
  rw [hev]
  refine ⟨?_, ?_⟩
  · rw [h.1]
    decide
  · rw [h.2.1]
    decide

/-! ## C7: terminal statuses are never reverted -/

/-- The record `handleTaskToolResult` writes on acceptance. -/
def acceptedSub (sub : SubagentInfo) (aid : Str) (now : Nat) : SubagentInfo :=
  { sub with
    asyncStatus := some AsyncStatus.running,
    agentId := some aid,
    startedAt := some now }

/-- The record `transitionToError` writes. -/
def erroredSub (sub : SubagentInfo) (msg : Str) (now : Nat) : SubagentInfo :=
  { sub with
    asyncStatus := some AsyncStatus.error,
    status := ToolStatus.error,
    result := some msg,
    completedAt := some now }

/-- The state after the acceptance writes of `handleTaskToolResult`. -/
def acceptedState (s : ManagerState) (tid aid : Str) (sub : SubagentInfo)
    (now : Nat) : ManagerState :=
  { s with
    pendingAsyncSubagents := mapDelete s.pendingAsyncSubagents tid,
    activeAsyncSubagents := mapSet s.activeAsyncSubagents aid (acceptedSub sub aid now),
    taskIdToAgentId := mapSet s.taskIdToAgentId tid aid }

theorem handleTaskToolResult_shape (s : ManagerState) (tid result : Str)
    (isError : Bool) (now : Nat) :
    (handleTaskToolResult s tid result isError now = (s, []) ∧
      mapGet s.pendingAsyncSubagents tid = none) ∨
    (∃ sub msg, mapGet s.pendingAsyncSubagents tid = some sub ∧
      handleTaskToolResult s tid result isError now =
        (updateAsyncDomState
          { s with pendingAsyncSubagents := mapDelete s.pendingAsyncSubagents tid }
          (erroredSub sub msg now),
         [erroredSub sub msg now])) ∨
    (∃ sub aid, mapGet s.pendingAsyncSubagents tid = some sub ∧
      handleTaskToolResult s tid result isError now =
        (updateAsyncDomState (acceptedState s tid aid sub now) (acceptedSub sub aid now),
         [acceptedSub sub aid now])) := by
  unfold handleTaskToolResult
  cases hget : mapGet s.pendingAsyncSubagents tid with
  | none => exact Or.inl ⟨rfl, rfl⟩
  | some sub =>
    by_cases he : isError = true
    · rw [he]
      refine Or.inr (Or.inl ⟨sub,
        (if result.isEmpty then str "Task failed to start" else result), rfl, ?_⟩)
      simp only [if_true, transitionToError, erroredSub]
    · have he' : isError = false := by
        revert he
        cases isError <;> simp
      rw [he']
      cases hp : parseAgentId result with
      | none =>
        refine Or.inr (Or.inl ⟨sub,
          (str "Failed to parse agent_id. Result: " ++ truncateResult result), rfl, ?_⟩)
        simp only [Bool.false_eq_true, if_false, transitionToError, erroredSub]
      | some aid =>
        refine Or.inr (Or.inr ⟨sub, aid, rfl, ?_⟩)
        simp only [Bool.false_eq_true, if_false, acceptedState, acceptedSub]

theorem lookupOutputSubagent_spec (s : ManagerState) (toolId result : Str) :
    lookupOutputSubagent s toolId result = none ∨
    ∃ aid sub, lookupOutputSubagent s toolId result = some (aid, sub) ∧
      mapGet s.activeAsyncSubagents aid = some sub := by
  unfold lookupOutputSubagent inferLookup
  have hinfer : (match inferAgentIdFromResult result with
      | some inferred =>
        if inferred.isEmpty then none
        else (mapGet s.activeAsyncSubagents inferred).map (fun sub => (inferred, sub))
      | none => none) = none ∨
      ∃ aid sub, (match inferAgentIdFromResult result with
        | some inferred =>
          if inferred.isEmpty then none
          else (mapGet s.activeAsyncSubagents inferred).map (fun sub => (inferred, sub))
        | none => none) = some (aid, sub) ∧
        mapGet s.activeAsyncSubagents aid = some sub := by
    cases hi : inferAgentIdFromResult result with
    | none => exact Or.inl rfl
    | some inferred =>
      dsimp only
      by_cases hie : inferred.isEmpty = true
      · rw [if_pos hie]
        exact Or.inl rfl
      · rw [if_neg hie]
        cases hs : mapGet s.activeAsyncSubagents inferred with
        | none => exact Or.inl rfl
        | some sub => exact Or.inr ⟨inferred, sub, rfl, hs⟩
  cases hm : mapGet s.outputToolIdToAgentId toolId with
  | none => exact hinfer
  | some aid =>
    dsimp only
    by_cases hae : aid.isEmpty = true
    · rw [if_pos hae]
      exact hinfer
    · rw [if_neg hae]
      cases hs : mapGet s.activeAsyncSubagents aid with
      | none => exact hinfer
      | some sub => exact Or.inr ⟨aid, sub, rfl, hs⟩

theorem handleAgentOutputToolResult_shape (s : ManagerState) (toolId result : Str)
    (isError : Bool) (now : Nat) :
    (handleAgentOutputToolResult s toolId result isError now = (s, none, [])) ∨
    (∃ aid sub, mapGet s.activeAsyncSubagents aid = some sub ∧
      (handleAgentOutputToolResult s toolId result isError now =
         (linkedState s toolId aid sub, none, []) ∨
       handleAgentOutputToolResult s toolId result isError now =
         ({ linkedState s toolId aid sub with
             outputToolIdToAgentId :=
               mapDelete (linkedState s toolId aid sub).outputToolIdToAgentId toolId },
          some (linkedSub sub aid), []) ∨
       handleAgentOutputToolResult s toolId result isError now =
         (updateAsyncDomState
           { linkedState s toolId aid sub with
             activeAsyncSubagents :=
               mapDelete (linkedState s toolId aid sub).activeAsyncSubagents aid,
             outputToolIdToAgentId :=
               mapDelete (linkedState s toolId aid sub).outputToolIdToAgentId toolId }
           (finishedSub sub aid result isError now),
          some (finishedSub sub aid result isError now),
          [finishedSub sub aid result isError now]))) := by
  unfold handleAgentOutputToolResult
  rcases lookupOutputSubagent_spec s toolId result with hf | ⟨aid, sub, hf, hsub⟩
  · rw [hf]
    exact Or.inl rfl
  · rw [hf]
    refine Or.inr ⟨aid, sub, hsub, ?_⟩
    dsimp only
    by_cases hg : (linkedSub sub aid).asyncStatus = some AsyncStatus.running
    · rw [if_neg (not_not_intro hg)]
      by_cases hsr : isStillRunningResult result isError = true
      · rw [if_pos hsr]
        exact Or.inr (Or.inl rfl)
      · rw [if_neg hsr]
        exact Or.inr (Or.inr rfl)
    · rw [if_pos hg]
      exact Or.inl rfl

/-- `Inv` only looks at the two async tracking maps. -/
theorem inv_of_fields {s0 s' : ManagerState} (h : Inv s0)
    (hp : s'.pendingAsyncSubagents = s0.pendingAsyncSubagents)
    (ha : s'.activeAsyncSubagents = s0.activeAsyncSubagents) : Inv s' := by
  constructor
  · rw [hp]; exact h.pendingOk
  · rw [ha]; exact h.activeOk
  · rw [hp]; exact h.pendingKeysNodup
  · rw [ha]; exact h.activeKeysNodup
  · rw [ha]; exact h.activeIdKey
  · rw [hp, ha]; exact h.disj

theorem inv_delete_pending {s : ManagerState} (h : Inv s) (tid : Str) :
    Inv { s with pendingAsyncSubagents := mapDelete s.pendingAsyncSubagents tid } := by
  constructor
  · intro e he
    exact h.pendingOk e (mem_mapDelete.mp he).1
  · exact h.activeOk
  · exact keys_mapDelete_nodup h.pendingKeysNodup
  · exact h.activeKeysNodup
  · exact h.activeIdKey
  · intro e he e' he'
    exact h.disj e (mem_mapDelete.mp he).1 e' he'

theorem inv_delete_active {s : ManagerState} (h : Inv s) (k : Str) :
    Inv { s with activeAsyncSubagents := mapDelete s.activeAsyncSubagents k } := by
  constructor
  · exact h.pendingOk
  · intro e he
    exact h.activeOk e (mem_mapDelete.mp he).1
  · exact h.pendingKeysNodup
  · exact keys_mapDelete_nodup h.activeKeysNodup
  · intro e₁ he₁ e₂ he₂
    exact h.activeIdKey e₁ (mem_mapDelete.mp he₁).1 e₂ (mem_mapDelete.mp he₂).1
  · intro e he e' he'
    exact h.disj e he e' (mem_mapDelete.mp he').1

theorem inv_accepted {s : ManagerState} {tid : Str} {sub : SubagentInfo}
    (h : Inv s) (hget : mapGet s.pendingAsyncSubagents tid = some sub)
    (aid : Str) (now : Nat) : Inv (acceptedState s tid aid sub now) := by
  have hmem : (tid, sub) ∈ s.pendingAsyncSubagents := mapGet_some_mem hget
  have hsubid : sub.id = tid := (h.pendingOk _ hmem).2
  constructor
  · intro e he
    exact h.pendingOk e (mem_mapDelete.mp he).1
  · intro e he
    rcases mem_mapSet_weak he with rfl | he'
    · rfl
    · exact h.activeOk e he'
  · exact keys_mapDelete_nodup h.pendingKeysNodup
  · exact keys_mapSet_nodup h.activeKeysNodup
  · intro e₁ he₁ e₂ he₂ hid
    rcases (mem_mapSet_iff h.activeKeysNodup).mp he₁ with rfl | ⟨he₁', hk₁⟩ <;>
      rcases (mem_mapSet_iff h.activeKeysNodup).mp he₂ with h₂ | ⟨he₂', hk₂⟩
    · rw [h₂]
    · exfalso
      refine h.disj (tid, sub) hmem e₂ he₂' ?_
      show tid = e₂.2.id
      rw [← hid]
      show tid = (acceptedSub sub aid now).id
      rw [show (acceptedSub sub aid now).id = sub.id from rfl, hsubid]
    · exfalso
      rw [h₂] at hid
      refine h.disj (tid, sub) hmem e₁ he₁' ?_
      show tid = e₁.2.id
      rw [hid]
      show tid = (acceptedSub sub aid now).id
      rw [show (acceptedSub sub aid now).id = sub.id from rfl, hsubid]
    · exact h.activeIdKey e₁ he₁' e₂ he₂' hid
  · intro e he e' he'
    rcases mem_mapSet_weak he' with rfl | he''
    · show ¬ e.1 = (acceptedSub sub aid now).id
      rw [show (acceptedSub sub aid now).id = sub.id from rfl, hsubid]
      exact (mem_mapDelete.mp he).2
    · exact h.disj e (mem_mapDelete.mp he).1 e' he''

theorem inv_linked {s : ManagerState} {aid : Str} {sub : SubagentInfo}
    (h : Inv s) (hsub : mapGet s.activeAsyncSubagents aid = some sub)
    (toolId : Str) : Inv (linkedState s toolId aid sub) := by
  have hmem : (aid, sub) ∈ s.activeAsyncSubagents := mapGet_some_mem hsub
  constructor
  · exact h.pendingOk
  · intro e he
    rcases mem_mapSet_weak he with rfl | he'
    · exact h.activeOk (aid, sub) hmem
    · exact h.activeOk e he'
  · exact h.pendingKeysNodup
  · exact keys_mapSet_nodup h.activeKeysNodup
  · intro e₁ he₁ e₂ he₂ hid
    rcases (mem_mapSet_iff h.activeKeysNodup).mp he₁ with rfl | ⟨he₁', hk₁⟩ <;>
      rcases (mem_mapSet_iff h.activeKeysNodup).mp he₂ with h₂ | ⟨he₂', hk₂⟩
    · rw [h₂]
    · show aid = e₂.1
      exact (h.activeIdKey (aid, sub) hmem e₂ he₂' hid).symm ▸ rfl
    · rw [h₂] at hid ⊢
      show e₁.1 = aid
      exact h.activeIdKey e₁ he₁' (aid, sub) hmem hid
    · exact h.activeIdKey e₁ he₁' e₂ he₂' hid
  · intro e he e' he'
    rcases mem_mapSet_weak he' with rfl | he''
    · exact h.disj e he (aid, sub) hmem
    · exact h.disj e he e' he''

theorem inv_handleTaskToolResult {s : ManagerState} (h : Inv s)
    (tid result : Str) (isError : Bool) (now : Nat) :
    Inv (handleTaskToolResult s tid result isError now).1 := by
  rcases handleTaskToolResult_shape s tid result isError now with
    ⟨heq, _⟩ | ⟨sub, msg, hget, heq⟩ | ⟨sub, aid, hget, heq⟩
  · rw [heq]
    exact h
  · rw [heq]
    exact inv_of_fields (inv_delete_pending h tid)
      (updateAsyncDomState_pending _ _) (updateAsyncDomState_active _ _)
  · rw [heq]
    exact inv_of_fields (inv_accepted h hget aid now)
      (updateAsyncDomState_pending _ _) (updateAsyncDomState_active _ _)

theorem inv_handleAgentOutputToolResult {s : ManagerState} (h : Inv s)
    (toolId result : Str) (isError : Bool) (now : Nat) :
    Inv (handleAgentOutputToolResult s toolId result isError now).1 := by
  rcases handleAgentOutputToolResult_shape s toolId result isError now with
    heq | ⟨aid, sub, hsub, heq | heq | heq⟩
  · rw [heq]
    exact h
  · rw [heq]
    exact inv_linked h hsub toolId
  · rw [heq]
    exact inv_of_fields (inv_linked h hsub toolId) rfl rfl
  · rw [heq]
    refine inv_of_fields ?_ (updateAsyncDomState_pending _ _)
      (updateAsyncDomState_active _ _)
    exact inv_of_fields (inv_delete_active (inv_linked h hsub toolId) aid) rfl rfl

theorem inv_handleAgentOutputToolUse {s : ManagerState} (h : Inv s)
    (toolId : Str) (input : AgentOutputInput) :
    Inv (handleAgentOutputToolUse s toolId input) := by
  unfold handleAgentOutputToolUse
  cases hid : extractAgentIdFromInput input with
  | none => exact h
  | some agentId =>
    dsimp only
    cases hsub : mapGet s.activeAsyncSubagents agentId with
    | none => exact h
    | some sub =>
      dsimp only
      have hmem : (agentId, sub) ∈ s.activeAsyncSubagents := mapGet_some_mem hsub
      constructor
      · exact h.pendingOk
      · intro e he
        rcases mem_mapSet_weak he with rfl | he'
        · exact h.activeOk (agentId, sub) hmem
        · exact h.activeOk e he'
      · exact h.pendingKeysNodup
      · exact keys_mapSet_nodup h.activeKeysNodup
      · intro e₁ he₁ e₂ he₂ hid'
        rcases (mem_mapSet_iff h.activeKeysNodup).mp he₁ with rfl | ⟨he₁', hk₁⟩ <;>
          rcases (mem_mapSet_iff h.activeKeysNodup).mp he₂ with h₂ | ⟨he₂', hk₂⟩
        · rw [h₂]
        · show agentId = e₂.1
          exact (h.activeIdKey (agentId, sub) hmem e₂ he₂' hid').symm ▸ rfl
        · rw [h₂] at hid' ⊢
          show e₁.1 = agentId
          exact h.activeIdKey e₁ he₁' (agentId, sub) hmem hid'
        · exact h.activeIdKey e₁ he₁' e₂ he₂' hid'
      · intro e he e' he'
        rcases mem_mapSet_weak he' with rfl | he''
        · exact h.disj e he (agentId, sub) hmem
        · exact h.disj e he e' he''

theorem inv_orphanAllActive {s : ManagerState} (now : Nat) :
    Inv (orphanAllActive s now).1 := by
  constructor
  · intro e he; cases he
  · intro e he; cases he
  · exact List.nodup_nil
  · exact List.nodup_nil
  · intro e he; cases he
  · intro e he; cases he

theorem inv_empty_lists {s : ManagerState}
    (hp : s.pendingAsyncSubagents = []) (ha : s.activeAsyncSubagents = []) :
    Inv s := by
  constructor
  · rw [hp]; intro e he; cases he
  · rw [ha]; intro e he; cases he
  · rw [hp]; exact List.nodup_nil
  · rw [ha]; exact List.nodup_nil
  · rw [ha]; intro e he; cases he
  · rw [hp]; intro e he; cases he

theorem step_inv {s : ManagerState} (e : ResultEvent) (h : Inv s) :
    Inv (stepEvent s e).1 := by
  cases e with
  | taskResult tid result isError now => exact inv_handleTaskToolResult h tid result isError now
  | outputUse toolId input => exact inv_handleAgentOutputToolUse h toolId input
  | outputResult toolId result isError now =>
    exact inv_handleAgentOutputToolResult h toolId result isError now
  | orphanSweep now => exact inv_orphanAllActive now
  | resetStreaming => exact inv_of_fields h rfl rfl

theorem mapGet_mapSet_ne {α : Type} (m : List (Str × α)) {k k' : Str} (v : α)
    (hk : ¬ k' = k) : mapGet (mapSet m k v) k' = mapGet m k' := by
  induction m with
  | nil =>
    rw [mapSet]
    unfold mapGet
    rw [List.find?_cons_of_neg _ (by simpa using fun h => hk h.symm), List.find?_nil]
  | cons e rest ih =>
    rw [mapSet]
    by_cases he : e.1 = k
    · rw [if_pos he]
      unfold mapGet
      rw [List.find?_cons_of_neg _ (by simpa using fun h => hk h.symm),
        List.find?_cons_of_neg _ (by simpa using fun h => hk (h.symm.trans he))]
    · rw [if_neg he]
      unfold mapGet at ih ⊢
      by_cases hke : e.1 = k'
      · rw [List.find?_cons_of_pos _ (by simpa using hke),
          List.find?_cons_of_pos _ (by simpa using hke)]
      · rw [List.find?_cons_of_neg _ (by simpa using hke),
          List.find?_cons_of_neg _ (by simpa using hke)]
        exact ih

/-- `Untracked` only looks at the two async tracking maps. -/
theorem untracked_of_fields {s0 s' : ManagerState} {i : Str} (h : Untracked s0 i)
    (hp : s'.pendingAsyncSubagents = s0.pendingAsyncSubagents)
    (ha : s'.activeAsyncSubagents = s0.activeAsyncSubagents) : Untracked s' i := by
  constructor
  · rw [hp]; exact h.1
  · rw [ha]; exact h.2

theorem untracked_updateAsyncDomState {s : ManagerState} {i : Str}
    (h : Untracked s i) (sub : SubagentInfo) :
    Untracked (updateAsyncDomState s sub) i :=
  untracked_of_fields h (updateAsyncDomState_pending _ _) (updateAsyncDomState_active _ _)

/-- An untracked id stays untracked across any event. -/
theorem step_untracked {s : ManagerState} {i : Str} (e : ResultEvent)
    (h : Inv s) (hu : Untracked s i) : Untracked (stepEvent s e).1 i := by
  cases e with
  | taskResult tid result isError now =>
    rcases handleTaskToolResult_shape s tid result isError now with
      ⟨heq, _⟩ | ⟨sub, msg, hget, heq⟩ | ⟨sub, aid, hget, heq⟩
    · show Untracked (handleTaskToolResult s tid result isError now).1 i
      rw [heq]
      exact hu
    · show Untracked (handleTaskToolResult s tid result isError now).1 i
      rw [heq]
      dsimp only
      refine untracked_updateAsyncDomState ⟨?_, ?_⟩ _
      · intro e he
        exact hu.1 e (mem_mapDelete.mp he).1
      · exact hu.2
    · show Untracked (handleTaskToolResult s tid result isError now).1 i
      rw [heq]
      have hmem : (tid, sub) ∈ s.pendingAsyncSubagents := mapGet_some_mem hget
      have hsubid : sub.id = tid := (h.pendingOk _ hmem).2
      refine untracked_updateAsyncDomState ⟨?_, ?_⟩ _
      · intro e he
        exact hu.1 e (mem_mapDelete.mp he).1
      · intro e he
        rcases mem_mapSet_weak he with rfl | he'
        · show ¬ (acceptedSub sub aid now).id = i
          rw [show (acceptedSub sub aid now).id = sub.id from rfl, hsubid]
          exact hu.1 (tid, sub) hmem
        · exact hu.2 e he'
  | outputUse toolId input =>
    show Untracked (handleAgentOutputToolUse s toolId input) i
    unfold handleAgentOutputToolUse
    cases hid : extractAgentIdFromInput input with
    | none => exact hu
    | some agentId =>
      dsimp only
      cases hsub : mapGet s.activeAsyncSubagents agentId with
      | none => exact hu
      | some sub =>
        dsimp only
        refine ⟨hu.1, ?_⟩
        intro e he
        rcases mem_mapSet_weak he with rfl | he'
        · exact hu.2 (agentId, sub) (mapGet_some_mem hsub)
        · exact hu.2 e he'
  | outputResult toolId result isError now =>
    show Untracked (handleAgentOutputToolResult s toolId result isError now).1 i
    rcases handleAgentOutputToolResult_shape s toolId result isError now with
      heq | ⟨aid, sub, hsub, heq | heq | heq⟩
    · rw [heq]
      exact hu
    · rw [heq]
      refine ⟨hu.1, ?_⟩
      intro e he
      rcases mem_mapSet_weak he with rfl | he'
      · exact hu.2 (aid, sub) (mapGet_some_mem hsub)
      · exact hu.2 e he'
    · rw [heq]
      refine ⟨hu.1, ?_⟩
      intro e he
      rcases mem_mapSet_weak he with rfl | he'
      · exact hu.2 (aid, sub) (mapGet_some_mem hsub)
      · exact hu.2 e he'
    · rw [heq]
      refine untracked_updateAsyncDomState ⟨?_, ?_⟩ _
      · exact hu.1
      · intro e he
        rcases mem_mapSet_weak (mem_mapDelete.mp he).1 with rfl | he'
        · exact hu.2 (aid, sub) (mapGet_some_mem hsub)
        · exact hu.2 e he'
  | orphanSweep now =>
    constructor
    · intro e he; cases he
    · intro e he; cases he
  | resetStreaming => exact hu

/-- An event fires no notification for an untracked id. -/
theorem step_no_notif {s : ManagerState} {i : Str} (e : ResultEvent)
    (h : Inv s) (hu : Untracked s i) :
    ∀ n ∈ (stepEvent s e).2, ¬ n.id = i := by
  cases e with
  | taskResult tid result isError now =>
    rcases handleTaskToolResult_shape s tid result isError now with
      ⟨heq, _⟩ | ⟨sub, msg, hget, heq⟩ | ⟨sub, aid, hget, heq⟩
    · show ∀ n ∈ (handleTaskToolResult s tid result isError now).2, ¬ n.id = i
      rw [heq]
      intro n hn
      cases hn
    · show ∀ n ∈ (handleTaskToolResult s tid result isError now).2, ¬ n.id = i
      rw [heq]
      intro n hn
      rcases List.mem_singleton.mp hn with rfl
      have hmem : (tid, sub) ∈ s.pendingAsyncSubagents := mapGet_some_mem hget
      show ¬ sub.id = i
      rw [(h.pendingOk _ hmem).2]
      exact hu.1 (tid, sub) hmem
    · show ∀ n ∈ (handleTaskToolResult s tid result isError now).2, ¬ n.id = i
      rw [heq]
      intro n hn
      rcases List.mem_singleton.mp hn with rfl
      have hmem : (tid, sub) ∈ s.pendingAsyncSubagents := mapGet_some_mem hget
      show ¬ sub.id = i
      rw [(h.pendingOk _ hmem).2]
      exact hu.1 (tid, sub) hmem
  | outputUse toolId input =>
    intro n hn
    cases hn
  | outputResult toolId result isError now =>
    rcases handleAgentOutputToolResult_shape s toolId result isError now with
      heq | ⟨aid, sub, hsub, heq | heq | heq⟩ <;>
      [skip; skip; skip;
       · show ∀ n ∈ (handleAgentOutputToolResult s toolId result isError now).2.2, ¬ n.id = i
         rw [heq]
         intro n hn
         rcases List.mem_singleton.mp hn with rfl
         show ¬ sub.id = i
         exact hu.2 (aid, sub) (mapGet_some_mem hsub)] <;>
      · show ∀ n ∈ (handleAgentOutputToolResult s toolId result isError now).2.2, ¬ n.id = i
        rw [heq]
        intro n hn
        cases hn
  | orphanSweep now =>
    show ∀ n ∈ (orphanAllActive s now).2.2, ¬ n.id = i
    intro n hn
    rcases List.mem_append.mp hn with hn' | hn'
    · rcases List.mem_map.mp hn' with ⟨v, hv, rfl⟩
      rcases List.mem_map.mp hv with ⟨ep, hep, rfl⟩
      show ¬ ep.2.id = i
      rw [(h.pendingOk ep hep).2]
      exact hu.1 ep hep
    · rcases List.mem_map.mp hn' with ⟨v, hv, rfl⟩
      rcases List.mem_map.mp (List.mem_of_mem_filter hv) with ⟨ea, hea, rfl⟩
      show ¬ ea.2.id = i
      exact hu.2 ea hea
  | resetStreaming =>
    intro n hn
    cases hn

/-- A terminal notification's id is untracked in the resulting state. -/
theorem step_terminal_untracked {s : ManagerState} {n : SubagentInfo}
    (e : ResultEvent) (h : Inv s) (hn : n ∈ (stepEvent s e).2)
    (ht : terminalAsync n.asyncStatus = true) :
    Untracked (stepEvent s e).1 n.id := by
  cases e with
  | taskResult tid result isError now =>
    rcases handleTaskToolResult_shape s tid result isError now with
      ⟨heq, _⟩ | ⟨sub, msg, hget, heq⟩ | ⟨sub, aid, hget, heq⟩
    · rw [show stepEvent s (.taskResult tid result isError now) =
          handleTaskToolResult s tid result isError now from rfl, heq] at hn ⊢
      cases hn
    · rw [show stepEvent s (.taskResult tid result isError now) =
          handleTaskToolResult s tid result isError now from rfl, heq] at hn ⊢
      rcases List.mem_singleton.mp hn with rfl
      have hmem : (tid, sub) ∈ s.pendingAsyncSubagents := mapGet_some_mem hget
      have hid : (erroredSub sub msg now).id = tid := (h.pendingOk _ hmem).2
      rw [hid]
      dsimp only
      refine untracked_updateAsyncDomState ⟨?_, ?_⟩ _
      · intro e he
        exact (mem_mapDelete.mp he).2
      · intro e he hcontra
        exact h.disj (tid, sub) hmem e he hcontra.symm
    · rw [show stepEvent s (.taskResult tid result isError now) =
          handleTaskToolResult s tid result isError now from rfl, heq] at hn ⊢
      rcases List.mem_singleton.mp hn with rfl
      exact absurd ht (by simp [acceptedSub, terminalAsync])
  | outputUse toolId input => cases hn
  | outputResult toolId result isError now =>
    rcases handleAgentOutputToolResult_shape s toolId result isError now with
      heq | ⟨aid, sub, hsub, heq | heq | heq⟩
    · rw [show (stepEvent s (.outputResult toolId result isError now)).2 =
          (handleAgentOutputToolResult s toolId result isError now).2.2 from rfl, heq] at hn
      cases hn
    · rw [show (stepEvent s (.outputResult toolId result isError now)).2 =
          (handleAgentOutputToolResult s toolId result isError now).2.2 from rfl, heq] at hn
      cases hn
    · rw [show (stepEvent s (.outputResult toolId result isError now)).2 =
          (handleAgentOutputToolResult s toolId result isError now).2.2 from rfl, heq] at hn
      cases hn
    · rw [show (stepEvent s (.outputResult toolId result isError now)).2 =
          (handleAgentOutputToolResult s toolId result isError now).2.2 from rfl, heq] at hn
      rcases List.mem_singleton.mp hn with rfl
      rw [show (stepEvent s (.outputResult toolId result isError now)).1 =
          (handleAgentOutputToolResult s toolId result isError now).1 from rfl, heq]
      have hmem : (aid, sub) ∈ s.activeAsyncSubagents := mapGet_some_mem hsub
      have hid : (finishedSub sub aid result isError now).id = sub.id := rfl
      rw [hid]
      dsimp only
      refine untracked_updateAsyncDomState ⟨?_, ?_⟩ _
      · intro e he
        exact h.disj e he (aid, sub) hmem
      · intro e he
        have hd := mem_mapDelete.mp he
        rcases mem_mapSet_weak hd.1 with rfl | he'
        · exact absurd rfl hd.2
        · intro hcontra
          exact hd.2 (h.activeIdKey e he' (aid, sub) hmem hcontra)
  | orphanSweep now =>
    constructor
    · intro e he; cases he
    · intro e he; cases he
  | resetStreaming => cases hn

/-- Every step's notification list is all-orphaned or a singleton at most. -/
theorem step_notif_shape (s : ManagerState) (e : ResultEvent) :
    (∀ n ∈ (stepEvent s e).2, n.asyncStatus = some AsyncStatus.orphaned) ∨
    (stepEvent s e).2.length ≤ 1 := by
  cases e with
  | taskResult tid result isError now =>
    refine Or.inr ?_
    rcases handleTaskToolResult_shape s tid result isError now with
      ⟨heq, _⟩ | ⟨sub, msg, hget, heq⟩ | ⟨sub, aid, hget, heq⟩ <;>
    · show (handleTaskToolResult s tid result isError now).2.length ≤ 1
      rw [heq]
      simp
  | outputUse toolId input => exact Or.inr (by simp [stepEvent])
  | outputResult toolId result isError now =>
    refine Or.inr ?_
    rcases handleAgentOutputToolResult_shape s toolId result isError now with
      heq | ⟨aid, sub, hsub, heq | heq | heq⟩ <;>
    · show (handleAgentOutputToolResult s toolId result isError now).2.2.length ≤ 1
      rw [heq]
      simp
  | orphanSweep now =>
    refine Or.inl ?_
    intro n hn
    rcases List.mem_append.mp hn with hn' | hn' <;>
    · rcases List.mem_map.mp hn' with ⟨v, hv, rfl⟩
      rfl
  | resetStreaming => exact Or.inr (by simp [stepEvent])

/-- An untracked id receives no notification over a whole run. -/
theorem runEvents_no_notif_untracked {s : ManagerState} {i : Str}
    (es : List ResultEvent) (h : Inv s) (hu : Untracked s i) :
    ∀ n ∈ (runEvents s es).2, ¬ n.id = i := by
  induction es generalizing s with
  | nil =>
    intro n hn
    cases hn
  | cons e es ih =>
    intro n hn
    rw [show (runEvents s (e :: es)).2 =
        (stepEvent s e).2 ++ (runEvents (stepEvent s e).1 es).2 from rfl] at hn
    rcases List.mem_append.mp hn with hn' | hn'
    · exact step_no_notif e h hu n hn'
    · exact ih (step_inv e h) (step_untracked e h hu) n hn'

/-- After a terminal notification, no same-id notification in the rest of the
trace is `running` — in fact none occurs at all. -/
theorem runEvents_terminal_no_revert {pre post : List SubagentInfo}
    {n₁ : SubagentInfo} (es : List ResultEvent) {s : ManagerState} (hinv : Inv s)
    (htr : (runEvents s es).2 = pre ++ n₁ :: post)
    (ht : terminalAsync n₁.asyncStatus = true) :
    ∀ n₂ ∈ post, n₂.id = n₁.id → ¬ n₂.asyncStatus = some AsyncStatus.running := by
  induction es generalizing s pre with
  | nil =>
    simp only [runEvents] at htr
    exact absurd htr.symm (by simp)
  | cons e es ih =>
    intro n₂ hn₂ hid
    rw [show (runEvents s (e :: es)).2 =
        (stepEvent s e).2 ++ (runEvents (stepEvent s e).1 es).2 from rfl] at htr
    rcases List.append_eq_append_iff.mp htr with ⟨a', ha1, ha2⟩ | ⟨c', hc1, hc2⟩
    · exact ih (step_inv e hinv) ha2 n₂ hn₂ hid
    · cases c' with
      | nil =>
        have htr' : (runEvents (stepEvent s e).1 es).2 = [] ++ n₁ :: post := by
          simpa using hc2.symm
        exact ih (step_inv e hinv) htr' n₂ hn₂ hid
      | cons x c₂ =>
        injection hc2 with hx hrest
        subst hx
        rw [hrest] at hn₂
        rcases List.mem_append.mp hn₂ with hn₂' | hn₂'
        · rcases step_notif_shape s e with horph | hlen
          · have hmem : n₂ ∈ (stepEvent s e).2 := by
              rw [hc1]
              exact List.mem_append_right _ (List.mem_cons_of_mem _ hn₂')
            rw [horph n₂ hmem]
            decide
          · rw [hc1] at hlen
            simp only [List.length_append, List.length_cons] at hlen
            have hc₂ : c₂.length = 0 := by omega
            rw [List.length_eq_zero.mp hc₂] at hn₂'
            cases hn₂'
        · have hn₁mem : n₁ ∈ (stepEvent s e).2 := by
            rw [hc1]
            exact List.mem_append_right _ (List.mem_cons_self _ _)
          have hut := step_terminal_untracked e hinv hn₁mem ht
          exact absurd hid
            (runEvents_no_notif_untracked es (step_inv e hinv) hut n₂ hn₂')

/-- The same-id `running` notifications following `n₁` in a trace suffix. -/
def revertsOf (n₁ : SubagentInfo) (post : List SubagentInfo) : List SubagentInfo :=
  post.filter (fun n₂ =>
    decide (n₂.id = n₁.id) && decide (n₂.asyncStatus = some AsyncStatus.running))

/-- C7: for every event sequence run against the orchestrator, once a record
has been assigned a terminal `asyncStatus` (`completed`, `error` or
`orphaned`) and notified as such, no later notification in the trace shows
the same id as `running` again; and a retrieve-output result for a subagent
whose `asyncStatus` is not `running` returns nothing, notifies nothing, and
leaves every tracked record's status fields (`status`, `asyncStatus`,
`result`, `completedAt`) unchanged. -/
theorem terminal_never_reverts :
    (∀ (es : List ResultEvent) (s : ManagerState) (pre post : List SubagentInfo)
        (n₁ : SubagentInfo), Inv s →
      (runEvents s es).2 = pre ++ n₁ :: post →
      terminalAsync n₁.asyncStatus = true →
      revertsOf n₁ post = []) ∧
    (∀ (s : ManagerState) (toolId result : Str) (isError : Bool) (now : Nat),
      (∀ aid sub, lookupOutputSubagent s toolId result = some (aid, sub) →
        ¬ sub.asyncStatus = some AsyncStatus.running) →
      (handleAgentOutputToolResult s toolId result isError now).2.1 = none ∧
      (handleAgentOutputToolResult s toolId result isError now).2.2 = [] ∧
      ∀ k sub', mapGet s.activeAsyncSubagents k = some sub' →
        ∃ sub'', mapGet (handleAgentOutputToolResult s toolId result isError
            now).1.activeAsyncSubagents k = some sub'' ∧
          sub''.status = sub'.status ∧ sub''.asyncStatus = sub'.asyncStatus ∧
          sub''.result = sub'.result ∧ sub''.completedAt = sub'.completedAt) := by
  constructor
  · intro es s pre post n₁ hinv htr ht
    refine List.filter_eq_nil_iff.mpr ?_
    intro n₂ hn₂
    simp only [Bool.and_eq_true, decide_eq_true_eq, not_and]
    exact fun hid => runEvents_terminal_no_revert es hinv htr ht n₂ hn₂ hid
  · intro s toolId result isError now hguard
    unfold handleAgentOutputToolResult
    rcases lookupOutputSubagent_spec s toolId result with hf | ⟨aid, sub, hf, hsub⟩
    · rw [hf]
      refine ⟨rfl, rfl, ?_⟩
      intro k sub' hk
      exact ⟨sub', hk, rfl, rfl, rfl, rfl⟩
    · rw [hf]
      dsimp only
      have hns : ¬ (linkedSub sub aid).asyncStatus = some AsyncStatus.running :=
        hguard aid sub hf
      rw [if_pos hns]
      refine ⟨rfl, rfl, ?_⟩
      intro k sub' hk
      by_cases hka : k = aid
      · subst hka
        rw [hk] at hsub
        injection hsub with hss
        subst hss
        refine ⟨linkedSub sub' k, ?_, rfl, rfl, rfl, rfl⟩
        show mapGet (mapSet s.activeAsyncSubagents k (linkedSub sub' k)) k =
          some (linkedSub sub' k)
        exact mapGet_mapSet_self _ _ _
      · refine ⟨sub', ?_, rfl, rfl, rfl, rfl⟩
        show mapGet (mapSet s.activeAsyncSubagents aid (linkedSub sub aid)) k = some sub'
        rw [mapGet_mapSet_ne _ _ hka]
        exact hk

/-- Two pending async records, for the C7 trace instantiation. -/
def c7pend1 : SubagentInfo :=
  { id := str "t1", description := str "d", prompt := str "p", mode := .async,
    status := .running, asyncStatus := some .pending }

def c7pend2 : SubagentInfo :=
  { id := str "t2", description := str "d", prompt := str "p", mode := .async,
    status := .running, asyncStatus := some .pending }

def c7s : ManagerState :=
  { pendingAsyncSubagents := [(str "t1", c7pend1), (str "t2", c7pend2)] }

def c7es : List ResultEvent :=
  [.taskResult (str "t1") (str "boomA") true 5,
   .taskResult (str "t2") (str "boomB") true 6]

def c7n : SubagentInfo := erroredSub c7pend1 (str "boomA") 5

def c7post : List SubagentInfo := [erroredSub c7pend2 (str "boomB") 6]

/-- A completed (hence non-`running`) active record being polled again. -/
def c7doneSub : SubagentInfo :=
  { id := str "t9", description := str "d", prompt := str "p", mode := .async,
    status := .completed, asyncStatus := some .completed,
    agentId := some (str "aa11"), result := some (str "done"), completedAt := some 9 }

def c7gState : ManagerState :=
  { activeAsyncSubagents := [(str "aa11", c7doneSub)],
    outputToolIdToAgentId := [(str "out1", str "aa11")] }

/-- C7 witness: on a concrete two-error trace the suffix after the first
terminal notification holds no same-id `running` notification; and a poll
against a concrete completed record returns nothing, notifies nothing and
keeps the record's `asyncStatus` at `completed`. -/
theorem terminal_never_reverts_witness :
    revertsOf c7n c7post = [] ∧
    (handleAgentOutputToolResult c7gState (str "out1") (str "xx") false 7).2.1 = none ∧
    (handleAgentOutputToolResult c7gState (str "out1") (str "xx") false 7).2.2 = [] ∧
    (mapGet (handleAgentOutputToolResult c7gState (str "out1") (str "xx") false
        7).1.activeAsyncSubagents (str "aa11")).map (fun x => x.asyncStatus) =
      some (some AsyncStatus.completed) := by
  have hguard : ∀ aid sub,
      lookupOutputSubagent c7gState (str "out1") (str "xx") = some (aid, sub) →
      ¬ sub.asyncStatus = some AsyncStatus.running := by
    intro aid sub h
    rw [show lookupOutputSubagent c7gState (str "out1") (str "xx") =
        some (str "aa11", c7doneSub) from by decide] at h
    have h2 := congrArg Prod.snd (Option.some.inj h)
    dsimp only at h2
    rw [← h2]
    decide
  have h := terminal_never_reverts.2 c7gState (str "out1") (str "xx") false 7 hguard
  refine ⟨terminal_never_reverts.1 c7es c7s [] c7post c7n
    (by constructor <;> decide) (by decide) (by decide), h.1, h.2.1, ?_⟩
  rcases h.2.2 (str "aa11") c7doneSub (by decide) with ⟨sub'', hmg, hst, hasync, hres, hcomp⟩
  rw [hmg]
  show some sub''.asyncStatus = some (some AsyncStatus.completed)
  rw [hasync]
  decide

end Obsiflow
